import Mathlib

/-!
Verification development for the sort-planning engine of a card-collection
management tool.  The Python sources are shallowly embedded: pure functions
become Lean functions, Python `int` becomes `Int`, Python exceptions become
`Except String`, and Python's insertion-ordered `dict`s become association
lists built in insertion order.  `str` methods are modelled character-wise
over `String.data` (the repository only ever feeds ASCII card data through
them).
-/

/-! ## Data model (core/models.py) -/

/-- `Card` from core/models.py.  `color_identity` holds single-character
color codes ('W','U','B','R','G'); `prices` is an opaque price map. -/
structure Card where
  scryfall_id : String
  name : String
  set_name : String
  rarity : String
  type_line : String
  color_identity : List Char
  edhrec_rank : Option Int
  mana_cost : Option String
  prices : List (String × Option String)
  quantity : Int
  condition : String
  sorted_count : Int
deriving DecidableEq

/-- `Card.unsorted_quantity`: `max(0, quantity - sorted_count)`. -/
def Card.unsorted_quantity (c : Card) : Int :=
  max 0 (c.quantity - c.sorted_count)

/-- `Card.is_fully_sorted`: `sorted_count >= quantity`. -/
def Card.is_fully_sorted (c : Card) : Bool :=
  c.quantity ≤ c.sorted_count

/-- `SortGroup` from core/models.py.  The dataclass declares no `sub_groups`
field; the planner adds that attribute dynamically, and only on non-leaf
groups.  `sub_groups = none` models the attribute being absent (reading it
then raises `AttributeError`); `some l` models it being assigned `l`. -/
inductive SortGroup : Type where
  | mk (group_name : String) (count : Int) (cards : List Card) (is_card_leaf : Bool)
       (total_count : Int) (unsorted_count : Int)
       (sub_groups : Option (List SortGroup)) : SortGroup

def SortGroup.group_name : SortGroup → String
  | .mk n _ _ _ _ _ _ => n

def SortGroup.count : SortGroup → Int
  | .mk _ c _ _ _ _ _ => c

def SortGroup.cards : SortGroup → List Card
  | .mk _ _ cs _ _ _ _ => cs

def SortGroup.is_card_leaf : SortGroup → Bool
  | .mk _ _ _ b _ _ _ => b

def SortGroup.total_count : SortGroup → Int
  | .mk _ _ _ _ t _ _ => t

def SortGroup.unsorted_count : SortGroup → Int
  | .mk _ _ _ _ _ u _ => u

def SortGroup.sub_groups : SortGroup → Option (List SortGroup)
  | .mk _ _ _ _ _ _ s => s

/-- Sum of `card.quantity` over a list of cards. -/
def sumQuantity (cards : List Card) : Int :=
  (cards.map Card.quantity).sum

/-- Sum of `card.quantity - card.sorted_count` (no clamping; this is what
`create_sorting_plan` itself computes). -/
def sumUnsortedRaw (cards : List Card) : Int :=
  (cards.map (fun c => c.quantity - c.sorted_count)).sum

/-- Sum of `card.unsorted_quantity` = `max(0, quantity - sorted_count)`
(what `SortGroup.__post_init__` computes). -/
def sumUnsortedQuantity (cards : List Card) : Int :=
  (cards.map Card.unsorted_quantity).sum

/-- `SortGroup(group_name=.., count=.., cards=.., is_card_leaf=..)` followed by
`__post_init__`: with `total_count`/`unsorted_count` left at their default 0,
`__post_init__` fills them from the cards (when the card list is non-empty)
and backfills `count` from `unsorted_count` when `count == 0`. -/
def SortGroup.init (group_name : String) (count : Int) (cards : List Card)
    (is_card_leaf : Bool) : SortGroup :=
  let tc := if cards.isEmpty then 0 else sumQuantity cards
  let uc := if cards.isEmpty then 0 else sumUnsortedQuantity cards
  let cnt := if count = 0 then uc else count
  .mk group_name cnt cards is_card_leaf tc uc none

/-! ## Python string helpers (ASCII, kernel-reducible) -/

/-- `str.upper` on one ASCII character. -/
def pyCharUpper (c : Char) : Char :=
  if 97 ≤ c.toNat ∧ c.toNat ≤ 122 then Char.ofNat (c.toNat - 32) else c

/-- `str.lower` on one ASCII character. -/
def pyCharLower (c : Char) : Char :=
  if 65 ≤ c.toNat ∧ c.toNat ≤ 90 then Char.ofNat (c.toNat + 32) else c

/-- `s.lower()` for ASCII strings. -/
def pyLower (s : String) : String :=
  ⟨s.data.map pyCharLower⟩

/-- Python whitespace test for the characters that occur in type lines. -/
def pyIsSpace (c : Char) : Bool :=
  c = ' ' ∨ c = '\t' ∨ c = '\n' ∨ c = '\r'

/-- `s.split('  ')[0]`: the prefix of the character list before the first
occurrence of two consecutive spaces. -/
def takeBeforeDoubleSpace : List Char → List Char
  | [] => []
  | [c] => [c]
  | c1 :: c2 :: rest =>
      if c1 = ' ' ∧ c2 = ' ' then []
      else c1 :: takeBeforeDoubleSpace (c2 :: rest)

/-- `s.strip()` on a character list. -/
def stripChars (l : List Char) : List Char :=
  ((l.dropWhile pyIsSpace).reverse.dropWhile pyIsSpace).reverse

/-- `s.split()` (split on whitespace runs) on a character list. -/
def splitWsAux : List Char → List Char → List (List Char)
  | [], acc => if acc.isEmpty then [] else [acc.reverse]
  | c :: rest, acc =>
      if pyIsSpace c then
        if acc.isEmpty then splitWsAux rest [] else acc.reverse :: splitWsAux rest []
      else splitWsAux rest (c :: acc)

def splitWs (l : List Char) : List (List Char) :=
  splitWsAux l []

/-- Ascending insertion over characters, used to model Python's `sorted`. -/
def insertCharAsc (c : Char) : List Char → List Char
  | [] => [c]
  | d :: rest => if d < c then d :: insertCharAsc c rest else c :: d :: rest

/-- `sorted(chars)`: Python's sort on characters (stable; on distinct
characters any correct sort agrees). -/
def sortCharsAsc : List Char → List Char
  | [] => []
  | c :: rest => insertCharAsc c (sortCharsAsc rest)

/-! ## Grouping criteria (core/sorter_planner.py, `_sort_by_*`) -/

/-- `_sort_by_set`. -/
def sort_by_set (card : Card) : String :=
  card.set_name

/-- `_sort_by_color_identity`. -/
def sort_by_color_identity (card : Card) : String :=
  match card.color_identity with
  | [] => "Colorless"
  | [c] =>
      match c with
      | 'W' => "White"
      | 'U' => "Blue"
      | 'B' => "Black"
      | 'R' => "Red"
      | 'G' => "Green"
      | _ => "Unknown"
  | colors => "Multicolor (" ++ ⟨sortCharsAsc colors⟩ ++ ")"

/-- `_sort_by_rarity`. -/
def sort_by_rarity (card : Card) : String :=
  match pyLower card.rarity with
  | "mythic" => "A-Mythic"
  | "rare" => "B-Rare"
  | "uncommon" => "C-Uncommon"
  | "common" => "D-Common"
  | _ => "E-Other"

/-- The supertype set used by `_sort_by_type_line`. -/
def supertypes : List (List Char) :=
  ["Legendary".data, "Basic".data, "Snow".data, "World".data, "Ongoing".data]

/-- `_sort_by_type_line`. -/
def sort_by_type_line (card : Card) : String :=
  if card.type_line = "" then "Unknown Type"
  else
    let primary_type := stripChars (takeBeforeDoubleSpace card.type_line.data)
    if primary_type.contains ' ' then
      let types := splitWs primary_type
      let main_type :=
        (types.find? (fun t => ¬ supertypes.contains t)).getD ((types.getLast?).getD [])
      ⟨main_type⟩
    else ⟨primary_type⟩

/-- `_sort_by_first_letter`. -/
def sort_by_first_letter (card : Card) : String :=
  if card.name = "" ∨ card.name = "N/A" then "Unknown"
  else
    match card.name.data with
    | [] => "Unknown"
    | c :: _ => ⟨[pyCharUpper c]⟩

/-- `_sort_by_name`. -/
def sort_by_name (card : Card) : String :=
  card.name

/-- `_sort_by_condition`. -/
def sort_by_condition (card : Card) : String :=
  match pyLower card.condition with
  | "mint" => "A-Mint"
  | "near mint" => "B-Near Mint"
  | "lightly played" => "C-Lightly Played"
  | "moderately played" => "D-Moderately Played"
  | "heavily played" => "E-Heavily Played"
  | "damaged" => "F-Damaged"
  | _ => "B-Near Mint"

/-- `_sort_by_commander_staple` (placeholder in the source). -/
def sort_by_commander_staple (_card : Card) : String :=
  "Non-Staple"

/-- The `sort_criteria` dict of `SorterPlanner.__init__`, in insertion order. -/
def sort_criteria : List (String × (Card → String)) :=
  [("Set", sort_by_set),
   ("Color Identity", sort_by_color_identity),
   ("Rarity", sort_by_rarity),
   ("Type Line", sort_by_type_line),
   ("First Letter", sort_by_first_letter),
   ("Name", sort_by_name),
   ("Condition", sort_by_condition),
   ("Commander Staple", sort_by_commander_staple)]

/-! ## `create_sorting_plan` and friends -/

/-- Append a card to the bucket of its key, keeping dict insertion order
(`collections.defaultdict(list)`). -/
def addToGroup : List (String × List Card) → String → Card → List (String × List Card)
  | [], k, c => [(k, [c])]
  | (k', cs) :: rest, k, c =>
      if k' = k then (k', cs ++ [c]) :: rest else (k', cs) :: addToGroup rest k c

/-- Bucket cards by a key function, buckets in first-encounter order. -/
def groupByKey (cards : List Card) (f : Card → String) : List (String × List Card) :=
  cards.foldl (fun acc c => addToGroup acc (f c) c) []

/-- `_group_cards_by_criterion`: `ValueError` for an unknown criterion. -/
def group_cards_by_criterion (cards : List Card) (criterion : String) :
    Except String (List (String × List Card)) :=
  match sort_criteria.lookup criterion with
  | none => .error ("Unknown sort criterion: " ++ criterion)
  | some sort_func => .ok (groupByKey cards sort_func)

/-- One step of `list.sort(key=lambda g: g.unsorted_count, reverse=True)`:
stable descending insertion. -/
def insertGroupDesc (g : SortGroup) : List SortGroup → List SortGroup
  | [] => [g]
  | h :: t =>
      if g.unsorted_count < h.unsorted_count then h :: insertGroupDesc g t
      else g :: h :: t

/-- Python's stable sort by `unsorted_count` descending. -/
def sortGroupsDesc : List SortGroup → List SortGroup
  | [] => []
  | h :: t => insertGroupDesc h (sortGroupsDesc t)

/-- The `SortGroup` built by `create_sorting_plan` for one bucket:
construction with `count=unsorted_count`, then the `total_count`,
`unsorted_count` and (for non-leaf levels) `sub_groups` attribute writes. -/
def make_plan_group (group_name : String) (group_cards : List Card)
    (subs : Option (List SortGroup)) : SortGroup :=
  let total_count := sumQuantity group_cards
  let unsorted_count := sumUnsortedRaw group_cards
  match SortGroup.init group_name unsorted_count group_cards false with
  | .mk n c cs leaf _ _ _ => .mk n c cs leaf total_count unsorted_count subs

/-- `Except`-valued map, propagating the first error (models the exception
escaping the `for` loop). -/
def mapExcept (f : α → Except ε β) : List α → Except ε (List β)
  | [] => .ok []
  | a :: as =>
    match f a with
    | .error e => .error e
    | .ok b =>
      match mapExcept f as with
      | .error e => .error e
      | .ok bs => .ok (b :: bs)

/-- The loop body of `create_sorting_plan` for one bucket: build the group,
and when criteria remain (`rest` non-empty) recurse (via `recur`) into the
bucket to populate `sub_groups`; a leaf level never assigns `sub_groups`. -/
def plan_bucket (recur : List Card → Except String (List SortGroup))
    (rest : List String) (nb : String × List Card) : Except String SortGroup :=
  match rest with
  | [] => .ok (make_plan_group nb.1 nb.2 none)
  | _ :: _ =>
      match recur nb.2 with
      | .error e => .error e
      | .ok subs => .ok (make_plan_group nb.1 nb.2 (some subs))

/-- `SorterPlanner.create_sorting_plan`. -/
def create_sorting_plan (cards : List Card) : List String → Except String (List SortGroup)
  | [] => .ok []
  | first_criterion :: rest =>
    if cards.isEmpty then .ok []
    else
      match group_cards_by_criterion cards first_criterion with
      | .error e => .error e
      | .ok grouped_cards =>
        match mapExcept (plan_bucket (fun gc => create_sorting_plan gc rest) rest)
            grouped_cards with
        | .error e => .error e
        | .ok sort_groups => .ok (sortGroupsDesc sort_groups)

/-- The `for path_element in path` loop of `get_cards_at_path`.  `last` is
`path[-1]`; the loop compares each element to it by value.  Reading
`found_group.sub_groups` on a group where the attribute was never assigned
raises `AttributeError`. -/
def getCardsAtPathLoop (last : String) :
    List SortGroup → List String → Except String (List Card)
  | _, [] => .ok []
  | current_groups, path_element :: restPath =>
    match current_groups.find? (fun g => g.group_name == path_element) with
    | none => .ok []
    | some found_group =>
      if path_element = last then .ok found_group.cards
      else
        match found_group.sub_groups with
        | none => .error "AttributeError: 'SortGroup' object has no attribute 'sub_groups'"
        | some subs =>
            getCardsAtPathLoop last (if subs.isEmpty then [] else subs) restPath

/-- `SorterPlanner.get_cards_at_path`. -/
def get_cards_at_path (sort_groups : List SortGroup) (path : List String) :
    Except String (List Card) :=
  if path.isEmpty then .ok (sort_groups.flatMap SortGroup.cards)
  else getCardsAtPathLoop ((path.getLast?).getD "") sort_groups path

/-! ## Letter plans (core/sorter_planner.py, `_create_*_letter_plan`) -/

/-- The 26 uppercase letters (`string.ascii_uppercase`). -/
def uppercaseLetters : List Char :=
  "ABCDEFGHIJKLMNOPQRSTUVWXYZ".data

/-- `letter_counts[ch] += q` on an insertion-ordered association list
(`collections.defaultdict(int)`). -/
def bumpCount : List (Char × Int) → Char → Int → List (Char × Int)
  | [], ch, q => [(ch, q)]
  | (ch', n) :: rest, ch, q =>
      if ch' = ch then (ch', n + q) :: rest else (ch', n) :: bumpCount rest ch q

/-- First letter used for letter statistics: `name[0].upper()` when the name
is non-empty and not `'N/A'`, otherwise the card is skipped. -/
def cardFirstLetter (c : Card) : Option Char :=
  if c.name = "" ∨ c.name = "N/A" then none
  else
    match c.name.data with
    | [] => none
    | ch :: _ => some (pyCharUpper ch)

/-- The per-letter quantity totals of a card list. -/
def letter_counts_of_cards (cards : List Card) : List (Char × Int) :=
  cards.foldl (fun acc c =>
    match cardFirstLetter c with
    | none => acc
    | some ch => bumpCount acc ch c.quantity) []

/-- `letter_counts.get(letter, 0)`. -/
def countOf (lc : List (Char × Int)) (ch : Char) : Int :=
  (lc.lookup ch).getD 0

/-- `flush_buffer`: `for ch in buffer: mapping[ch] = buffer`. -/
def flushEntries (buffer : List Char) : List (Char × String) :=
  buffer.map (fun ch => (ch, (⟨buffer⟩ : String)))

/-- The accumulation scan of `_create_grouped_letter_plan`: walk the alphabet
with a running buffer, flushing when the running total reaches the threshold
or the next letter is not itself low (`0 < count < threshold`). -/
def groupedScan (counts : Char → Int) (threshold : Int) :
    List Char → List Char → Int → List (Char × String)
  | [], buffer, _ => flushEntries buffer
  | letter :: restLetters, buffer, buffer_total =>
    let count := counts letter
    if 0 < count ∧ count < threshold then
      let buffer' := buffer ++ [letter]
      let buffer_total' := buffer_total + count
      let next_letter_small : Bool :=
        match restLetters with
        | [] => false
        | next :: _ => decide (0 < counts next ∧ counts next < threshold)
      if threshold ≤ buffer_total' ∨ next_letter_small = false then
        flushEntries buffer' ++ groupedScan counts threshold restLetters [] 0
      else groupedScan counts threshold restLetters buffer' buffer_total'
    else
      flushEntries buffer ++
      (if 0 < count then [(letter, (⟨[letter]⟩ : String))] else []) ++
      groupedScan counts threshold restLetters [] 0

/-- The letter-to-pile mapping of `_create_grouped_letter_plan` (keys are
exactly the letters with non-zero count). -/
def grouped_letter_mapping (counts : Char → Int) (threshold : Int) : List (Char × String) :=
  groupedScan counts threshold uppercaseLetters [] 0

/-- One `piles[pile_key]` record: `{'cards': [...], 'total': n, 'unsorted': n}`. -/
structure PileData where
  cards : List Card
  total : Int
  unsorted : Int
deriving DecidableEq

/-- `piles[pile_key]` update for one card. -/
def addToPiles : List (String × PileData) → String → Card → List (String × PileData)
  | [], k, c => [(k, ⟨[c], c.quantity, c.quantity - c.sorted_count⟩)]
  | (k', pd) :: rest, k, c =>
      if k' = k then
        (k', ⟨pd.cards ++ [c], pd.total + c.quantity, pd.unsorted + (c.quantity - c.sorted_count)⟩) :: rest
      else (k', pd) :: addToPiles rest k c

/-- The card-bucketing loop shared verbatim by the three letter-plan
functions; `keyOf` gives the pile key of a card (`none` = card skipped). -/
def buildPiles (cards : List Card) (keyOf : Card → Option String) : List (String × PileData) :=
  cards.foldl (fun acc c =>
    match keyOf c with
    | none => acc
    | some k => addToPiles acc k c) []

/-- The `SortGroup` built for one pile: construction with
`count=pile_data['unsorted']`, then the `total_count`/`unsorted_count`
attribute writes (no `sub_groups` is ever assigned). -/
def make_letter_group (pile_name : String) (pd : PileData) : SortGroup :=
  match SortGroup.init pile_name pd.unsorted pd.cards false with
  | .mk n c cs leaf _ _ _ => .mk n c cs leaf pd.total pd.unsorted none

/-- Pile key under a letter mapping: `mapping.get(first_letter, first_letter)`. -/
def mappedKeyOf (mapping : List (Char × String)) (c : Card) : Option String :=
  (cardFirstLetter c).map (fun fl => (mapping.lookup fl).getD (⟨[fl]⟩ : String))

/-- `_create_grouped_letter_plan`. -/
def create_grouped_letter_plan (cards : List Card) (threshold : Int) :
    List SortGroup × List (Char × String) :=
  let mapping := grouped_letter_mapping (countOf (letter_counts_of_cards cards)) threshold
  ((buildPiles cards (mappedKeyOf mapping)).map (fun p => make_letter_group p.1 p.2), mapping)

/-- Stable descending insertion by count, modelling
`letter_counts.sort(key=lambda x: x[1], reverse=True)`. -/
def insertCountDesc (x : Char × Int) : List (Char × Int) → List (Char × Int)
  | [] => [x]
  | h :: t => if x.2 < h.2 then h :: insertCountDesc x t else x :: h :: t

def sortCountsDesc : List (Char × Int) → List (Char × Int)
  | [] => []
  | h :: t => insertCountDesc h (sortCountsDesc t)

/-- `sum(c for _, c in bin_items)`. -/
def binSum (b : List (Char × Int)) : Int :=
  (b.map Prod.snd).sum

/-- The best-fit search of `_optimal_bin_packing`: scan all bins, skip full
ones (`len >= 3`), and among bins where the item still fits keep the first
one with the strictly smallest remaining space. -/
def findBestBinAux (count capacity : Int) :
    List (List (Char × Int)) → Nat → Option (Nat × Int) → Option (Nat × Int)
  | [], _, best => best
  | bin_items :: bins, i, best =>
      if 3 ≤ bin_items.length then findBestBinAux count capacity bins (i + 1) best
      else
        let current_sum := binSum bin_items
        if current_sum + count ≤ capacity then
          let remaining_space := capacity - (current_sum + count)
          match best with
          | none => findBestBinAux count capacity bins (i + 1) (some (i, remaining_space))
          | some (bi, br) =>
              if remaining_space < br then
                findBestBinAux count capacity bins (i + 1) (some (i, remaining_space))
              else findBestBinAux count capacity bins (i + 1) (some (bi, br))
        else findBestBinAux count capacity bins (i + 1) best

def findBestBin (bins : List (List (Char × Int))) (count capacity : Int) : Option Nat :=
  (findBestBinAux count capacity bins 0 none).map Prod.fst

/-- `best_bin.append(item)` at a bin index. -/
def addToBinAt : List (List (Char × Int)) → Nat → (Char × Int) → List (List (Char × Int))
  | [], _, _ => []
  | b :: bs, 0, item => (b ++ [item]) :: bs
  | b :: bs, n + 1, item => b :: addToBinAt bs n item

/-- `_optimal_bin_packing`. -/
def optimal_bin_packing (items : List (Char × Int)) (capacity : Int) :
    List (List (Char × Int)) :=
  if items.isEmpty then []
  else
    (sortCountsDesc items).foldl (fun bins item =>
      match findBestBin bins item.2 capacity with
      | some i => addToBinAt bins i item
      | none => bins ++ [[item]]) []

/-- `letter_counts` of `_create_optimal_letter_plan`: all 26 letters with
their counts, sorted by count descending. -/
def letterCountsSorted (counts : Char → Int) : List (Char × Int) :=
  sortCountsDesc (uppercaseLetters.map (fun l => (l, counts l)))

/-- `high_letters`: letters with count at or above the threshold. -/
def highLetters (counts : Char → Int) (threshold : Int) : List (Char × Int) :=
  (letterCountsSorted counts).filter (fun lc => threshold ≤ lc.2)

/-- `low_letters`: letters with count strictly between 0 and the threshold. -/
def lowLetters (counts : Char → Int) (threshold : Int) : List (Char × Int) :=
  (letterCountsSorted counts).filter (fun lc => 0 < lc.2 ∧ lc.2 < threshold)

/-- `group_name = ''.join(sorted([letter for letter, _ in group]))`. -/
def binName (group : List (Char × Int)) : String :=
  ⟨sortCharsAsc (group.map Prod.fst)⟩

/-- The mapping entries of one bin: every letter of the bin maps to the
bin's name. -/
def binEntries (group : List (Char × Int)) : List (Char × String) :=
  group.map (fun lc => (lc.1, binName group))

/-- The mapping entries for high and low letters: high-count letters solo,
low-count letters packed into bins named by their letters in alphabetical
order (the `mapping` dict of `_create_optimal_letter_plan` before the final
zero-count fill-in). -/
def mappingHL (counts : Char → Int) (threshold : Int) : List (Char × String) :=
  (highLetters counts threshold).map (fun lc => (lc.1, (⟨[lc.1]⟩ : String)))
    ++ (optimal_bin_packing (lowLetters counts threshold) threshold).flatMap binEntries

/-- The letter-to-pile mapping of `_create_optimal_letter_plan`: high-count
letters solo, low-count letters packed into bins, all remaining letters
mapped to themselves. -/
def optimal_letter_mapping (counts : Char → Int) (threshold : Int) : List (Char × String) :=
  mappingHL counts threshold ++
    (uppercaseLetters.filter (fun l => ((mappingHL counts threshold).lookup l).isNone)).map
      (fun l => (l, (⟨[l]⟩ : String)))

/-- `_create_optimal_letter_plan`. -/
def create_optimal_letter_plan (cards : List Card) (threshold : Int) :
    List SortGroup × List (Char × String) :=
  let mapping := optimal_letter_mapping (countOf (letter_counts_of_cards cards)) threshold
  ((buildPiles cards (mappedKeyOf mapping)).map (fun p => make_letter_group p.1 p.2), mapping)

/-- The identity mapping of `_create_simple_letter_plan`. -/
def simple_letter_mapping : List (Char × String) :=
  uppercaseLetters.map (fun l => (l, (⟨[l]⟩ : String)))

/-- `_create_simple_letter_plan` (piles keyed directly by first letter). -/
def create_simple_letter_plan (cards : List Card) :
    List SortGroup × List (Char × String) :=
  ((buildPiles cards (fun c => (cardFirstLetter c).map (fun fl => (⟨[fl]⟩ : String)))).map
      (fun p => make_letter_group p.1 p.2),
   simple_letter_mapping)

/-- `create_set_letter_plan` dispatcher. -/
def create_set_letter_plan (cards : List Card) (_set_name : String)
    (group_low_count optimal_grouping : Bool) (threshold : Int) :
    List SortGroup × List (Char × String) :=
  if optimal_grouping then create_optimal_letter_plan cards threshold
  else if group_low_count then create_grouped_letter_plan cards threshold
  else create_simple_letter_plan cards

/-! ## Progressive tree population (ui/custom_widgets.py) -/

/-- Observable callback events of a progressive-population run: one `item`
per materialized node plus the final `finished` callback. -/
inductive PopEvent (α : Type) : Type where
  | item (node : α) : PopEvent α
  | finished : PopEvent α
deriving DecidableEq

/-- `_process_next_chunk`, driven by timer ticks: each tick materializes
`nodes[current_index : min(current_index + chunk_size, len(nodes))]` in list
order; when the cursor reaches the end the timer is stopped and
`_finalize_population` fires `finished` exactly once.  `ticks` is the number
of timer callbacks that actually run: cancellation (a new populate starting,
or destruction of the widget) stops the timer, so a cancelled run is one
whose tick budget ran out before the final chunk. -/
def processTicks (nodes : List α) (chunk_size : Nat) : Nat → Nat → List (PopEvent α)
  | 0, _ => []
  | ticks + 1, current_index =>
    let chunk_end := min (current_index + chunk_size) nodes.length
    let items := ((nodes.drop current_index).take (chunk_end - current_index)).map PopEvent.item
    if nodes.length ≤ chunk_end then items ++ [PopEvent.finished]
    else items ++ processTicks nodes chunk_size ticks chunk_end

/-- `_populate_tree_progressively`: start a fresh run at index 0 and let
`ticks` timer callbacks execute. -/
def populate_run (nodes : List α) (chunk_size : Nat) (ticks : Nat) : List (PopEvent α) :=
  processTicks nodes chunk_size ticks 0

/-! ## Claim-level predicates and shared example inputs -/

mutual
/-- Count invariant of a group and, recursively, of its assigned children:
`total_count = Σ quantity` and `unsorted_count = Σ max(0, quantity - sorted_count)`. -/
def countsInvariant : SortGroup → Bool
  | .mk _ _ cards _ tc uc subs =>
      tc == sumQuantity cards && uc == sumUnsortedQuantity cards &&
      (match subs with
       | none => true
       | some l => countsInvariantList l)

def countsInvariantList : List SortGroup → Bool
  | [] => true
  | g :: gs => countsInvariant g && countsInvariantList gs
end

mutual
/-- The cards of the deepest-level (leaf) groups of a tree, in tree order.
A leaf is a group whose `sub_groups` attribute was never assigned. -/
def leafCards : SortGroup → List Card
  | .mk _ _ cards _ _ _ none => cards
  | .mk _ _ _ _ _ _ (some subs) => leafCardsList subs

def leafCardsList : List SortGroup → List Card
  | [] => []
  | g :: gs => leafCards g ++ leafCardsList gs
end

mutual
/-- Sibling groups are non-increasing in `unsorted_count` at every depth. -/
def treeSorted : SortGroup → Bool
  | .mk _ _ _ _ _ _ none => true
  | .mk _ _ _ _ _ _ (some subs) => treeSortedList subs

def treeSortedList : List SortGroup → Bool
  | [] => true
  | [g] => treeSorted g
  | g :: g2 :: gs => decide (g2.unsorted_count ≤ g.unsorted_count) && treeSorted g && treeSortedList (g2 :: gs)
end

/-- The first criterion of a list that is outside the fixed criteria library. -/
def firstUnknownCriterion : List String → Option String
  | [] => none
  | c :: rest => if (sort_criteria.lookup c).isNone then some c else firstUnknownCriterion rest

/-- Names of the sub-groups of the first top-level group of a plan result
(used to exhibit the order of a deeper level on concrete inputs). -/
def topSubNames (r : Except String (List SortGroup)) : List String :=
  match r with
  | .ok (g :: _) => ((g.sub_groups).getD []).map SortGroup.group_name
  | _ => []

/-- A test card with the given name, rarity, quantity and sorted count,
owned by set "Alpha". -/
def testCard (name rarity : String) (q s : Int) : Card :=
  ⟨"id-" ++ name, name, "Alpha", rarity, "Creature", [], none, none, [], q, "N/A", s⟩

/-- Scenario-A card list from the specification. -/
def scenarioACards : List Card :=
  [testCard "Abomination" "common" 2 0,
   testCard "Azusa" "common" 1 1,
   testCard "Brago" "common" 3 3]

/-- Cards exhibiting re-sorting of a deeper level: the common card (1
unsorted) is encountered before the rare card (2 unsorted). -/
def deepOrderCards : List Card :=
  [testCard "Arbiter" "common" 1 0,
   testCard "Brago" "rare" 2 0]

/-- Cards whose per-letter counts are Q:2, X:1, Z:1 (Scenario B). -/
def scenarioBCards : List Card :=
  [testCard "Quux" "common" 2 0,
   testCard "Xyz" "common" 1 0,
   testCard "Zeta" "common" 1 0]

/-- The per-letter counts of Scenario B as a count assignment. -/
def scenarioBCounts : Char → Int :=
  countOf (letter_counts_of_cards scenarioBCards)

/-- The letters sharing the pile that `mapping` assigns to `ℓ`, in
alphabetical order. -/
def pileMates (mapping : List (Char × String)) (ℓ : Char) : List Char :=
  uppercaseLetters.filter (fun m => mapping.lookup m == mapping.lookup ℓ)

/-- Extract the groups of a successful plan (empty on error); used to state
concrete facts about evaluated plans. -/
def okGroups : Except String (List SortGroup) → List SortGroup
  | .ok gs => gs
  | .error _ => []

/-- The plan for Scenario A under `["First Letter"]`. -/
def scenarioAPlan : List SortGroup :=
  okGroups (create_sorting_plan scenarioACards ["First Letter"])

/-- The plan for Scenario A under `["First Letter", "Name"]`. -/
def scenarioAPlan2 : List SortGroup :=
  okGroups (create_sorting_plan scenarioACards ["First Letter", "Name"])

/-! # Theorems -/

/-! ## Basic lemmas about the embedded operations -/

theorem make_plan_group_eq (n : String) (gc : List Card) (subs : Option (List SortGroup)) :
    make_plan_group n gc subs =
      .mk n (if sumUnsortedRaw gc = 0 then (if gc.isEmpty then 0 else sumUnsortedQuantity gc)
             else sumUnsortedRaw gc)
        gc false (sumQuantity gc) (sumUnsortedRaw gc) subs := by
  simp [make_plan_group, SortGroup.init]

theorem addToGroup_flatten_perm (acc : List (String × List Card)) (k : String) (c : Card) :
    (((addToGroup acc k c).map Prod.snd).flatten).Perm ((acc.map Prod.snd).flatten ++ [c]) := by
  induction acc with
  | nil => simp [addToGroup]
  | cons h t ih =>
      obtain ⟨k', cs⟩ := h
      by_cases hk : k' = k
      · simp only [addToGroup, if_pos hk, List.map_cons, List.flatten_cons]
        have h1 : (cs ++ [c]) ++ ((t.map Prod.snd).flatten)
            = cs ++ ([c] ++ (t.map Prod.snd).flatten) := by simp
        have h2 : (cs ++ ([c] ++ (t.map Prod.snd).flatten)).Perm
            (cs ++ ((t.map Prod.snd).flatten ++ [c])) :=
          List.Perm.append_left cs List.perm_append_comm
        have h3 : cs ++ ((t.map Prod.snd).flatten ++ [c])
            = (cs ++ (t.map Prod.snd).flatten) ++ [c] := by simp
        exact h1 ▸ (h3 ▸ h2)
      · simp only [addToGroup, if_neg hk, List.map_cons, List.flatten_cons]
        have h2 : (cs ++ ((addToGroup t k c).map Prod.snd).flatten).Perm
            (cs ++ ((t.map Prod.snd).flatten ++ [c])) := List.Perm.append_left cs ih
        have h3 : cs ++ ((t.map Prod.snd).flatten ++ [c])
            = (cs ++ (t.map Prod.snd).flatten) ++ [c] := by simp
        exact h3 ▸ h2

theorem groupByKey_flatten_perm (cards : List Card) (f : Card → String) :
    (((groupByKey cards f).map Prod.snd).flatten).Perm cards := by
  suffices h : ∀ acc : List (String × List Card),
      ((((cards.foldl (fun acc c => addToGroup acc (f c) c) acc)).map Prod.snd).flatten).Perm
        ((acc.map Prod.snd).flatten ++ cards) by
    simpa [groupByKey] using h []
  induction cards with
  | nil => intro acc; simp
  | cons c cs ih =>
      intro acc
      simp only [List.foldl_cons]
      refine (ih (addToGroup acc (f c) c)).trans ?_
      have h1 : ((((addToGroup acc (f c) c)).map Prod.snd).flatten ++ cs).Perm
          (((acc.map Prod.snd).flatten ++ [c]) ++ cs) :=
        (addToGroup_flatten_perm acc (f c) c).append_right cs
      have h2 : ((acc.map Prod.snd).flatten ++ [c]) ++ cs
          = (acc.map Prod.snd).flatten ++ (c :: cs) := by simp
      exact h2 ▸ h1

theorem mem_of_mem_groupByKey {cards : List Card} {f : Card → String}
    {b : String × List Card} (hb : b ∈ groupByKey cards f) {x : Card} (hx : x ∈ b.2) :
    x ∈ cards := by
  refine (groupByKey_flatten_perm cards f).mem_iff.mp ?_
  exact List.mem_flatten.mpr ⟨b.2, List.mem_map_of_mem Prod.snd hb, hx⟩

theorem addToGroup_ne_nil (acc : List (String × List Card)) (k : String) (c : Card) :
    addToGroup acc k c ≠ [] := by
  cases acc with
  | nil => simp [addToGroup]
  | cons h t =>
      obtain ⟨k', cs⟩ := h
      by_cases hk : k' = k <;> simp [addToGroup, hk]

theorem groupByKey_ne_nil {cards : List Card} (f : Card → String) (hc : cards ≠ []) :
    groupByKey cards f ≠ [] := by
  have haux : ∀ (l : List Card) (acc : List (String × List Card)), acc ≠ [] →
      l.foldl (fun acc c => addToGroup acc (f c) c) acc ≠ [] := by
    intro l
    induction l with
    | nil => intro acc h; simpa using h
    | cons c cs ih =>
        intro acc _
        simp only [List.foldl_cons]
        exact ih _ (addToGroup_ne_nil acc (f c) c)
  cases cards with
  | nil => exact absurd rfl hc
  | cons c cs =>
      simp only [groupByKey, List.foldl_cons]
      exact haux cs _ (addToGroup_ne_nil [] (f c) c)

theorem groupByKey_entry_ne_nil {cards : List Card} {f : Card → String} :
    ∀ b ∈ groupByKey cards f, b.2 ≠ [] := by
  have hstep : ∀ (acc : List (String × List Card)) (k : String) (c : Card),
      (∀ b ∈ acc, b.2 ≠ []) → ∀ b ∈ addToGroup acc k c, b.2 ≠ [] := by
    intro acc k c hacc
    induction acc with
    | nil => simp [addToGroup]
    | cons h t ih =>
        obtain ⟨k', cs⟩ := h
        by_cases hk : k' = k
        · simp only [addToGroup, if_pos hk]
          intro b hb
          rcases List.mem_cons.mp hb with hb | hb
          · subst hb
            intro hcon
            simp at hcon
          · exact hacc b (List.mem_cons_of_mem _ hb)
        · simp only [addToGroup, if_neg hk]
          intro b hb
          rcases List.mem_cons.mp hb with hb | hb
          · exact hacc b (by simp [hb])
          · exact ih (fun b hb => hacc b (List.mem_cons_of_mem _ hb)) b hb
  have haux : ∀ (l : List Card) (acc : List (String × List Card)),
      (∀ b ∈ acc, b.2 ≠ []) →
      ∀ b ∈ l.foldl (fun acc c => addToGroup acc (f c) c) acc, b.2 ≠ [] := by
    intro l
    induction l with
    | nil => intro acc h; simpa using h
    | cons c cs ih =>
        intro acc hacc
        simp only [List.foldl_cons]
        exact ih _ (hstep acc (f c) c hacc)
  exact haux cards [] (by simp)

theorem insertGroupDesc_perm (g : SortGroup) (l : List SortGroup) :
    (insertGroupDesc g l).Perm (g :: l) := by
  induction l with
  | nil => simp [insertGroupDesc]
  | cons h t ih =>
      rw [insertGroupDesc]
      by_cases hc : g.unsorted_count < h.unsorted_count
      · rw [if_pos hc]
        exact (ih.cons h).trans (List.Perm.swap g h t)
      · rw [if_neg hc]

theorem sortGroupsDesc_perm (l : List SortGroup) : (sortGroupsDesc l).Perm l := by
  induction l with
  | nil => simp [sortGroupsDesc]
  | cons h t ih =>
      rw [sortGroupsDesc]
      exact (insertGroupDesc_perm h (sortGroupsDesc t)).trans (ih.cons h)

theorem mapExcept_ok_forall₂ {f : α → Except ε β} {l : List α} {ys : List β}
    (h : mapExcept f l = .ok ys) : List.Forall₂ (fun a b => f a = .ok b) l ys := by
  induction l generalizing ys with
  | nil =>
      rw [mapExcept] at h
      cases h
      exact .nil
  | cons a as ih =>
      rw [mapExcept] at h
      cases hfa : f a with
      | error e => rw [hfa] at h; cases h
      | ok b =>
          rw [hfa] at h
          cases hrest : mapExcept f as with
          | error e => rw [hrest] at h; cases h
          | ok bs =>
              rw [hrest] at h
              cases h
              exact .cons hfa (ih hrest)

theorem forall₂_rel_of_mem_right {R : α → β → Prop} {l₁ : List α} {l₂ : List β}
    (h : List.Forall₂ R l₁ l₂) {b : β} (hb : b ∈ l₂) : ∃ a ∈ l₁, R a b := by
  induction h with
  | nil => cases hb
  | @cons a' b' l₁' l₂' hr _ ih =>
      rcases List.mem_cons.mp hb with hb | hb
      · exact ⟨a', List.mem_cons_self a' l₁', hb ▸ hr⟩
      · obtain ⟨a, ha, har⟩ := ih hb
        exact ⟨a, List.mem_cons_of_mem _ ha, har⟩

theorem countsInvariantList_iff (l : List SortGroup) :
    countsInvariantList l = true ↔ ∀ g ∈ l, countsInvariant g = true := by
  induction l with
  | nil => simp [countsInvariantList]
  | cons g gs ih => simp [countsInvariantList, ih]

theorem sumUnsortedRaw_eq_clamped {l : List Card}
    (h : ∀ c ∈ l, c.sorted_count ≤ c.quantity) :
    sumUnsortedRaw l = sumUnsortedQuantity l := by
  induction l with
  | nil => rfl
  | cons c cs ih =>
      simp only [sumUnsortedRaw, sumUnsortedQuantity, List.map_cons, List.sum_cons] at *
      rw [ih (fun x hx => h x (List.mem_cons_of_mem _ hx))]
      have hc : 0 ≤ c.quantity - c.sorted_count :=
        sub_nonneg.mpr (h c (List.mem_cons_self c cs))
      simp [Card.unsorted_quantity, max_eq_right hc]

theorem group_cards_by_criterion_ok {cards : List Card} {crit : String}
    {buckets : List (String × List Card)}
    (h : group_cards_by_criterion cards crit = .ok buckets) :
    ∃ f, sort_criteria.lookup crit = some f ∧ buckets = groupByKey cards f := by
  unfold group_cards_by_criterion at h
  cases hl : sort_criteria.lookup crit with
  | none => rw [hl] at h; cases h
  | some f => rw [hl] at h; cases h; exact ⟨f, rfl, rfl⟩

/-- C1: for every card list satisfying the data-model invariant
`sorted_count ≤ quantity` and every criteria list on which
`create_sorting_plan` succeeds, every `SortGroup` at every depth of the
returned tree satisfies `total_count = Σ quantity` and
`unsorted_count = Σ max(0, quantity - sorted_count)` over its member cards. -/
theorem create_sorting_plan_count_invariants
    (cards : List Card) (sort_order : List String) (groups : List SortGroup)
    (hvalid : ∀ c ∈ cards, c.sorted_count ≤ c.quantity)
    (hok : create_sorting_plan cards sort_order = .ok groups) :
    countsInvariantList groups = true := by
  induction sort_order generalizing cards groups with
  | nil =>
      simp only [create_sorting_plan] at hok
      cases hok
      rfl
  | cons first rest ih =>
      simp only [create_sorting_plan] at hok
      by_cases hcE : cards.isEmpty = true
      · rw [if_pos hcE] at hok; cases hok; rfl
      · rw [if_neg hcE] at hok
        cases hgc : group_cards_by_criterion cards first with
        | error e => rw [hgc] at hok; cases hok
        | ok buckets =>
            rw [hgc] at hok
            have hok2 : (match mapExcept (plan_bucket (fun gc => create_sorting_plan gc rest) rest)
                    buckets with
                | Except.error e => (Except.error e : Except String (List SortGroup))
                | Except.ok sort_groups => Except.ok (sortGroupsDesc sort_groups))
                = Except.ok groups := hok
            cases hme : mapExcept (plan_bucket (fun gc => create_sorting_plan gc rest) rest)
                buckets with
            | error e => rw [hme] at hok2; cases hok2
            | ok sg =>
              rw [hme] at hok2
              cases hok2
              rw [countsInvariantList_iff]
              intro g hg
              have hgsg : g ∈ sg := (sortGroupsDesc_perm sg).mem_iff.mp hg
              obtain ⟨nb, hnb, hrel⟩ :=
                forall₂_rel_of_mem_right (mapExcept_ok_forall₂ hme) hgsg
              obtain ⟨f, _, hbk⟩ := group_cards_by_criterion_ok hgc
              subst hbk
              have hsub : ∀ c ∈ nb.2, c.sorted_count ≤ c.quantity :=
                fun c hcmem => hvalid c (mem_of_mem_groupByKey hnb hcmem)
              cases rest with
              | nil =>
                  have hrel' : Except.ok (make_plan_group nb.1 nb.2 none)
                      = Except.ok g := hrel
                  cases hrel'
                  rw [make_plan_group_eq]
                  simp only [countsInvariant]
                  rw [sumUnsortedRaw_eq_clamped hsub]
                  simp
              | cons r1 rs =>
                  have hrel' : (match create_sorting_plan nb.2 (r1 :: rs) with
                      | .error e => Except.error e
                      | .ok subs => Except.ok (make_plan_group nb.1 nb.2 (some subs)))
                      = Except.ok g := hrel
                  cases hcr : create_sorting_plan nb.2 (r1 :: rs) with
                  | error e => rw [hcr] at hrel'; cases hrel'
                  | ok subs =>
                      rw [hcr] at hrel'
                      cases hrel'
                      rw [make_plan_group_eq]
                      simp only [countsInvariant]
                      rw [sumUnsortedRaw_eq_clamped hsub]
                      have hsubs := ih nb.2 subs hsub hcr
                      simp [hsubs]

/-- Witness for C1 at Scenario A's card list and `["First Letter"]`. -/
theorem create_sorting_plan_count_invariants_witness :
    countsInvariantList scenarioAPlan = true :=
  create_sorting_plan_count_invariants scenarioACards ["First Letter"] scenarioAPlan
    (by decide) (by rfl)

theorem leafCardsList_eq (l : List SortGroup) :
    leafCardsList l = (l.map leafCards).flatten := by
  induction l with
  | nil => rfl
  | cons g gs ih => simp [leafCardsList, ih]

theorem flatten_perm_of_forall₂ {α : Type} {l₁ l₂ : List (List α)}
    (h : List.Forall₂ (fun (x y : List α) => x.Perm y) l₁ l₂) :
    l₁.flatten.Perm l₂.flatten := by
  induction h with
  | nil => rfl
  | cons hr _ ih => simpa using hr.append ih

theorem create_sorting_plan_partition_aux :
    ∀ (rest : List String) (cards : List Card) (first : String) (groups : List SortGroup),
      create_sorting_plan cards (first :: rest) = .ok groups →
      (leafCardsList groups).Perm cards := by
  intro rest
  induction rest with
  | nil =>
      intro cards first groups hok
      simp only [create_sorting_plan] at hok
      by_cases hcE : cards.isEmpty = true
      · rw [if_pos hcE] at hok; cases hok
        rw [List.isEmpty_iff.mp hcE]
        simp [leafCardsList]
      · rw [if_neg hcE] at hok
        cases hgc : group_cards_by_criterion cards first with
        | error e => rw [hgc] at hok; cases hok
        | ok buckets =>
          rw [hgc] at hok
          have hok2 : (match mapExcept (plan_bucket (fun gc => create_sorting_plan gc []) [])
                  buckets with
              | Except.error e => (Except.error e : Except String (List SortGroup))
              | Except.ok sort_groups => Except.ok (sortGroupsDesc sort_groups))
              = Except.ok groups := hok
          cases hme : mapExcept (plan_bucket (fun gc => create_sorting_plan gc []) [])
              buckets with
          | error e => rw [hme] at hok2; cases hok2
          | ok sg =>
            rw [hme] at hok2; cases hok2
            obtain ⟨f, _, hbk⟩ := group_cards_by_criterion_ok hgc
            subst hbk
            rw [leafCardsList_eq]
            refine (((sortGroupsDesc_perm sg).map leafCards).flatten).trans ?_
            have haux : ∀ (bs : List (String × List Card)) (ss : List SortGroup),
                List.Forall₂ (fun nb g =>
                  plan_bucket (fun gc => create_sorting_plan gc []) [] nb = .ok g) bs ss →
                List.Forall₂ (fun (x y : List Card) => x.Perm y)
                  (ss.map leafCards) (bs.map Prod.snd) := by
              intro bs ss h
              induction h with
              | nil => exact .nil
              | @cons nb g bs' ss' hr _ ih2 =>
                  refine .cons ?_ ih2
                  have hg : Except.ok (make_plan_group nb.1 nb.2 none) = Except.ok g := hr
                  cases hg
                  rw [make_plan_group_eq]
                  simp only [leafCards]
                  exact List.Perm.refl _
            exact (flatten_perm_of_forall₂ (haux _ _ (mapExcept_ok_forall₂ hme))).trans
              (groupByKey_flatten_perm cards f)
  | cons r1 rs ih =>
      intro cards first groups hok
      simp only [create_sorting_plan] at hok
      by_cases hcE : cards.isEmpty = true
      · rw [if_pos hcE] at hok; cases hok
        rw [List.isEmpty_iff.mp hcE]
        simp [leafCardsList]
      · rw [if_neg hcE] at hok
        cases hgc : group_cards_by_criterion cards first with
        | error e => rw [hgc] at hok; cases hok
        | ok buckets =>
          rw [hgc] at hok
          have hok2 : (match mapExcept
                  (plan_bucket (fun gc => create_sorting_plan gc (r1 :: rs)) (r1 :: rs))
                  buckets with
              | Except.error e => (Except.error e : Except String (List SortGroup))
              | Except.ok sort_groups => Except.ok (sortGroupsDesc sort_groups))
              = Except.ok groups := hok
          cases hme : mapExcept
              (plan_bucket (fun gc => create_sorting_plan gc (r1 :: rs)) (r1 :: rs))
              buckets with
          | error e => rw [hme] at hok2; cases hok2
          | ok sg =>
            rw [hme] at hok2; cases hok2
            obtain ⟨f, _, hbk⟩ := group_cards_by_criterion_ok hgc
            subst hbk
            rw [leafCardsList_eq]
            refine (((sortGroupsDesc_perm sg).map leafCards).flatten).trans ?_
            have haux : ∀ (bs : List (String × List Card)) (ss : List SortGroup),
                List.Forall₂ (fun nb g =>
                  plan_bucket (fun gc => create_sorting_plan gc (r1 :: rs)) (r1 :: rs) nb
                    = .ok g) bs ss →
                List.Forall₂ (fun (x y : List Card) => x.Perm y)
                  (ss.map leafCards) (bs.map Prod.snd) := by
              intro bs ss h
              induction h with
              | nil => exact .nil
              | @cons nb g bs' ss' hr _ ih2 =>
                  refine .cons ?_ ih2
                  have hg : (match create_sorting_plan nb.2 (r1 :: rs) with
                      | .error e => Except.error e
                      | .ok subs => Except.ok (make_plan_group nb.1 nb.2 (some subs)))
                      = Except.ok g := hr
                  cases hcr : create_sorting_plan nb.2 (r1 :: rs) with
                  | error e => rw [hcr] at hg; cases hg
                  | ok subs =>
                      rw [hcr] at hg
                      cases hg
                      rw [make_plan_group_eq]
                      simp only [leafCards]
                      exact ih nb.2 r1 subs hcr
            exact (flatten_perm_of_forall₂ (haux _ _ (mapExcept_ok_forall₂ hme))).trans
              (groupByKey_flatten_perm cards f)

/-- C2: for every card list and every non-empty criteria list on which
`create_sorting_plan` succeeds, the multiset union of the cards of the
deepest-level (leaf) groups equals the input card list, each card once. -/
theorem create_sorting_plan_partition
    (cards : List Card) (sort_order : List String) (groups : List SortGroup)
    (hne : sort_order ≠ [])
    (hok : create_sorting_plan cards sort_order = .ok groups) :
    (leafCardsList groups).Perm cards := by
  cases sort_order with
  | nil => exact absurd rfl hne
  | cons first rest => exact create_sorting_plan_partition_aux rest cards first groups hok

/-- Witness for C2 at Scenario A's card list and `["First Letter", "Name"]`. -/
theorem create_sorting_plan_partition_witness :
    (leafCardsList scenarioAPlan2).Perm scenarioACards :=
  create_sorting_plan_partition scenarioACards ["First Letter", "Name"] scenarioAPlan2
    (by decide) (by rfl)

theorem insertGroupDesc_chain (g : SortGroup) (l : List SortGroup)
    (hl : l.Chain' (fun a b => b.unsorted_count ≤ a.unsorted_count)) :
    (insertGroupDesc g l).Chain' (fun a b => b.unsorted_count ≤ a.unsorted_count) := by
  induction l with
  | nil => simp [insertGroupDesc]
  | cons h t ih =>
      rw [insertGroupDesc]
      by_cases hc : g.unsorted_count < h.unsorted_count
      · rw [if_pos hc]
        rw [List.chain'_cons']
        refine ⟨?_, ih hl.tail⟩
        intro b hb
        cases t with
        | nil =>
            simp [insertGroupDesc] at hb
            subst hb
            exact le_of_lt hc
        | cons h2 t2 =>
            rw [insertGroupDesc] at hb
            by_cases hc2 : g.unsorted_count < h2.unsorted_count
            · rw [if_pos hc2] at hb
              simp at hb
              subst hb
              exact (List.chain'_cons.mp hl).1
            · rw [if_neg hc2] at hb
              simp at hb
              subst hb
              exact le_of_lt hc
      · rw [if_neg hc]
        rw [List.chain'_cons']
        refine ⟨?_, hl⟩
        intro b hb
        simp at hb
        subst hb
        exact not_lt.mp hc

theorem sortGroupsDesc_chain (l : List SortGroup) :
    (sortGroupsDesc l).Chain' (fun a b => b.unsorted_count ≤ a.unsorted_count) := by
  induction l with
  | nil => simp [sortGroupsDesc]
  | cons h t ih =>
      rw [sortGroupsDesc]
      exact insertGroupDesc_chain h _ ih

theorem treeSortedList_iff (l : List SortGroup) :
    treeSortedList l = true ↔
      (l.Chain' (fun a b => b.unsorted_count ≤ a.unsorted_count) ∧
       ∀ g ∈ l, treeSorted g = true) := by
  induction l with
  | nil => simp [treeSortedList]
  | cons g gs ih =>
      cases gs with
      | nil => simp [treeSortedList]
      | cons g2 gs2 =>
          rw [treeSortedList]
          simp only [Bool.and_eq_true, decide_eq_true_eq, ih, List.chain'_cons, List.mem_cons]
          constructor
          · rintro ⟨⟨hle, hg⟩, hchain, hall⟩
            refine ⟨⟨hle, hchain⟩, ?_⟩
            intro x hx
            rcases hx with rfl | hx
            · exact hg
            · exact hall x hx
          · rintro ⟨⟨hle, hchain⟩, hall⟩
            exact ⟨⟨hle, hall g (Or.inl rfl)⟩, hchain,
              fun x hx => hall x (Or.inr hx)⟩

theorem plan_treeSortedList :
    ∀ (sort_order : List String) (cards : List Card) (groups : List SortGroup),
      create_sorting_plan cards sort_order = .ok groups → treeSortedList groups = true := by
  intro sort_order
  induction sort_order with
  | nil =>
      intro cards groups hok
      simp only [create_sorting_plan] at hok
      cases hok
      rfl
  | cons first rest ih =>
      intro cards groups hok
      simp only [create_sorting_plan] at hok
      by_cases hcE : cards.isEmpty = true
      · rw [if_pos hcE] at hok; cases hok; rfl
      · rw [if_neg hcE] at hok
        cases hgc : group_cards_by_criterion cards first with
        | error e => rw [hgc] at hok; cases hok
        | ok buckets =>
          rw [hgc] at hok
          have hok2 : (match mapExcept (plan_bucket (fun gc => create_sorting_plan gc rest) rest)
                  buckets with
              | Except.error e => (Except.error e : Except String (List SortGroup))
              | Except.ok sort_groups => Except.ok (sortGroupsDesc sort_groups))
              = Except.ok groups := hok
          cases hme : mapExcept (plan_bucket (fun gc => create_sorting_plan gc rest) rest)
              buckets with
          | error e => rw [hme] at hok2; cases hok2
          | ok sg =>
            rw [hme] at hok2; cases hok2
            rw [treeSortedList_iff]
            refine ⟨sortGroupsDesc_chain sg, ?_⟩
            intro g hg
            have hgsg : g ∈ sg := (sortGroupsDesc_perm sg).mem_iff.mp hg
            obtain ⟨nb, hnb, hrel⟩ :=
              forall₂_rel_of_mem_right (mapExcept_ok_forall₂ hme) hgsg
            cases rest with
            | nil =>
                have hrel' : Except.ok (make_plan_group nb.1 nb.2 none)
                    = Except.ok g := hrel
                cases hrel'
                rw [make_plan_group_eq]
                simp only [treeSorted]
            | cons r1 rs =>
                have hrel' : (match create_sorting_plan nb.2 (r1 :: rs) with
                    | .error e => Except.error e
                    | .ok subs => Except.ok (make_plan_group nb.1 nb.2 (some subs)))
                    = Except.ok g := hrel
                cases hcr : create_sorting_plan nb.2 (r1 :: rs) with
                | error e => rw [hcr] at hrel'; cases hrel'
                | ok subs =>
                    rw [hcr] at hrel'
                    cases hrel'
                    rw [make_plan_group_eq]
                    simp only [treeSorted]
                    exact ih nb.2 subs hcr

/-- C10: in every tree returned by `create_sorting_plan`, at every depth
(not only the top level), sibling `SortGroup`s are ordered by
`unsorted_count` in non-increasing order. -/
theorem create_sorting_plan_all_depths_sorted
    (cards : List Card) (sort_order : List String) (groups : List SortGroup)
    (hok : create_sorting_plan cards sort_order = .ok groups) :
    treeSortedList groups = true :=
  plan_treeSortedList sort_order cards groups hok

/-- Witness for C10 at Scenario A's card list and `["First Letter", "Name"]`. -/
theorem create_sorting_plan_all_depths_sorted_witness :
    treeSortedList scenarioAPlan2 = true :=
  create_sorting_plan_all_depths_sorted scenarioACards ["First Letter", "Name"]
    scenarioAPlan2 (by rfl)

theorem plan_bucket_ok_fields {recur : List Card → Except String (List SortGroup)}
    {rest : List String} {nb : String × List Card} {g : SortGroup}
    (h : plan_bucket recur rest nb = .ok g) :
    g.group_name = nb.1 ∧ g.cards = nb.2 ∧ g.unsorted_count = sumUnsortedRaw nb.2 ∧
    ((rest = [] ∧ g.sub_groups = none) ∨
     (∃ subs, g.sub_groups = some subs ∧ recur nb.2 = .ok subs)) := by
  cases rest with
  | nil =>
      have h' : Except.ok (make_plan_group nb.1 nb.2 none) = Except.ok g := h
      cases h'
      rw [make_plan_group_eq]
      exact ⟨rfl, rfl, rfl, Or.inl ⟨rfl, rfl⟩⟩
  | cons r1 rs =>
      have h' : (match recur nb.2 with
          | .error e => Except.error e
          | .ok subs => Except.ok (make_plan_group nb.1 nb.2 (some subs)))
          = Except.ok g := h
      cases hcr : recur nb.2 with
      | error e => rw [hcr] at h'; cases h'
      | ok subs =>
          rw [hcr] at h'
          cases h'
          rw [make_plan_group_eq]
          exact ⟨rfl, rfl, rfl, Or.inr ⟨subs, rfl, rfl⟩⟩

theorem planLevel_names {recur : List Card → Except String (List SortGroup)}
    {rest : List String} :
    ∀ {bs : List (String × List Card)} {sg : List SortGroup},
      List.Forall₂ (fun nb g => plan_bucket recur rest nb = .ok g) bs sg →
      sg.map SortGroup.group_name = bs.map Prod.fst := by
  intro bs sg h
  induction h with
  | nil => rfl
  | @cons nb g bs' sg' hr _ ih =>
      simp only [List.map_cons, ih, (plan_bucket_ok_fields hr).1]

theorem planLevel_filter {recur : List Card → Except String (List SortGroup)}
    {rest : List String} (v : Int) :
    ∀ {bs : List (String × List Card)} {sg : List SortGroup},
      List.Forall₂ (fun nb g => plan_bucket recur rest nb = .ok g) bs sg →
      (sg.filter (fun g => g.unsorted_count == v)).map SortGroup.group_name
        = (bs.filter (fun nb => sumUnsortedRaw nb.2 == v)).map Prod.fst := by
  intro bs sg h
  induction h with
  | nil => rfl
  | @cons nb g bs' sg' hr _ ih =>
      obtain ⟨hn, _, hu, _⟩ := plan_bucket_ok_fields hr
      rw [List.filter_cons, List.filter_cons]
      by_cases hv : sumUnsortedRaw nb.2 = v
      · have h1 : (g.unsorted_count == v) = true := by
          rw [hu, hv]; exact beq_self_eq_true v
        have h2 : (sumUnsortedRaw nb.2 == v) = true := by
          rw [hv]; exact beq_self_eq_true v
        rw [h1, h2, if_pos rfl, if_pos rfl]
        simp only [List.map_cons, ih, hn]
      · have h1 : (g.unsorted_count == v) = false := by
          rw [hu]; exact beq_eq_false_iff_ne.mpr hv
        have h2 : (sumUnsortedRaw nb.2 == v) = false := beq_eq_false_iff_ne.mpr hv
        rw [h1, h2, if_neg (by simp), if_neg (by simp)]
        exact ih

theorem filter_insertGroupDesc (v : Int) (g : SortGroup) (l : List SortGroup) :
    (insertGroupDesc g l).filter (fun x => x.unsorted_count == v)
      = if g.unsorted_count = v
        then g :: l.filter (fun x => x.unsorted_count == v)
        else l.filter (fun x => x.unsorted_count == v) := by
  induction l with
  | nil => by_cases hv : g.unsorted_count = v <;> simp [insertGroupDesc, hv]
  | cons h t ih =>
      rw [insertGroupDesc]
      by_cases hc : g.unsorted_count < h.unsorted_count
      · rw [if_pos hc]
        by_cases hv : g.unsorted_count = v
        · have hhv : ¬ (h.unsorted_count = v) := by
            intro he
            exact absurd (hv.trans he.symm) (ne_of_lt hc)
          rw [List.filter_cons, List.filter_cons]
          simp only [beq_eq_false_iff_ne.mpr hhv]
          rw [ih]
          simp [hv]
        · have h2 := ih
          rw [List.filter_cons, List.filter_cons]
          by_cases hhv : h.unsorted_count = v
          · simp only [beq_iff_eq, hhv, if_pos rfl]
            rw [ih]
            simp [hv]
          · simp only [beq_eq_false_iff_ne.mpr hhv]
            rw [ih]
            simp [hv]
      · rw [if_neg hc]
        by_cases hv : g.unsorted_count = v <;>
          simp [List.filter_cons, hv]

theorem filter_sortGroupsDesc (v : Int) (l : List SortGroup) :
    (sortGroupsDesc l).filter (fun x => x.unsorted_count == v)
      = l.filter (fun x => x.unsorted_count == v) := by
  induction l with
  | nil => rfl
  | cons h t ih =>
      rw [sortGroupsDesc, filter_insertGroupDesc]
      by_cases hv : h.unsorted_count = v <;> simp [List.filter_cons, hv, ih]

/-- C6 (amended): at every level of the recursion — and hence for the
sibling list at every depth of the tree, since each `sub_groups` list is the
result of the recursive call recorded in the last conjunct — the child
groups are the projection-order (first-encounter) bucket groups re-sorted by
`unsorted_count` in non-increasing order, with groups of equal
`unsorted_count` kept in projection iteration order. -/
theorem create_sorting_plan_level_order
    (cards : List Card) (first : String) (rest : List String)
    (groups : List SortGroup) (buckets : List (String × List Card))
    (hok : create_sorting_plan cards (first :: rest) = .ok groups)
    (hbk : group_cards_by_criterion cards first = .ok buckets) :
    (groups.map SortGroup.group_name).Perm (buckets.map Prod.fst) ∧
    groups.Chain' (fun a b => b.unsorted_count ≤ a.unsorted_count) ∧
    (∀ v : Int, (groups.filter (fun g => g.unsorted_count == v)).map SortGroup.group_name
        = (buckets.filter (fun nb => sumUnsortedRaw nb.2 == v)).map Prod.fst) ∧
    (∀ g ∈ groups, ∀ subs, g.sub_groups = some subs →
        create_sorting_plan g.cards rest = .ok subs) := by
  simp only [create_sorting_plan] at hok
  by_cases hcE : cards.isEmpty = true
  · rw [if_pos hcE] at hok
    cases hok
    obtain ⟨f, _, hbf⟩ := group_cards_by_criterion_ok hbk
    subst hbf
    rw [List.isEmpty_iff.mp hcE]
    refine ⟨List.Perm.refl _, List.chain'_nil, fun v => rfl, ?_⟩
    intro g hg
    exact absurd hg (List.not_mem_nil g)
  · rw [if_neg hcE] at hok
    rw [hbk] at hok
    have hok2 : (match mapExcept (plan_bucket (fun gc => create_sorting_plan gc rest) rest)
            buckets with
        | Except.error e => (Except.error e : Except String (List SortGroup))
        | Except.ok sort_groups => Except.ok (sortGroupsDesc sort_groups))
        = Except.ok groups := hok
    cases hme : mapExcept (plan_bucket (fun gc => create_sorting_plan gc rest) rest)
        buckets with
    | error e => rw [hme] at hok2; cases hok2
    | ok sg =>
      rw [hme] at hok2
      cases hok2
      have hf2 := mapExcept_ok_forall₂ hme
      refine ⟨?_, sortGroupsDesc_chain sg, ?_, ?_⟩
      · have h1 : ((sortGroupsDesc sg).map SortGroup.group_name).Perm
            (sg.map SortGroup.group_name) := (sortGroupsDesc_perm sg).map _
        rw [planLevel_names hf2] at h1
        exact h1
      · intro v
        rw [filter_sortGroupsDesc, planLevel_filter v hf2]
      · intro g hg subs hsubs
        have hgsg : g ∈ sg := (sortGroupsDesc_perm sg).mem_iff.mp hg
        obtain ⟨nb, hnb, hrel⟩ := forall₂_rel_of_mem_right hf2 hgsg
        obtain ⟨_, hcards, _, hdis⟩ := plan_bucket_ok_fields hrel
        rcases hdis with ⟨_, hnone⟩ | ⟨subs', hsome, hcr⟩
        · rw [hnone] at hsubs; cases hsubs
        · rw [hsome] at hsubs
          cases hsubs
          rw [hcards]
          exact hcr

/-- Counterexample to C6: with cards `[common Arbiter (1 unsorted), rare
Brago (2 unsorted)]` and criteria `["Set", "Rarity"]`, the depth-1 sibling
order is `["B-Rare", "D-Common"]` while the projection's first-encounter
iteration order is `["D-Common", "B-Rare"]`: the deeper level is re-sorted,
not left in projection order. -/
theorem create_sorting_plan_level_order_counterexample :
    topSubNames (create_sorting_plan deepOrderCards ["Set", "Rarity"])
        = ["B-Rare", "D-Common"] ∧
    (groupByKey deepOrderCards sort_by_rarity).map Prod.fst
        = ["D-Common", "B-Rare"] := by
  exact ⟨by rfl, by rfl⟩

/-- Witness for C6 (amended) at `deepOrderCards` and `["Set", "Rarity"]`. -/
theorem create_sorting_plan_level_order_witness :
    ((okGroups (create_sorting_plan deepOrderCards ["Set", "Rarity"])).map
        SortGroup.group_name).Perm
      ((groupByKey deepOrderCards sort_by_set).map Prod.fst) :=
  (create_sorting_plan_level_order deepOrderCards "Set" ["Rarity"]
    (okGroups (create_sorting_plan deepOrderCards ["Set", "Rarity"]))
    (groupByKey deepOrderCards sort_by_set) (by rfl) (by rfl)).1

theorem mapExcept_cons {α ε β : Type} (f : α → Except ε β) (a : α) (as : List α) :
    mapExcept f (a :: as) = (match f a with
      | .error e => .error e
      | .ok b => match mapExcept f as with
                 | .error e => .error e
                 | .ok bs => .ok (b :: bs)) := rfl

theorem mapExcept_cons_error {α ε β : Type} (f : α → Except ε β) (a : α) (as : List α)
    (e : ε) (h : f a = .error e) : mapExcept f (a :: as) = .error e := by
  rw [mapExcept_cons, h]

theorem plan_first_unknown :
    ∀ (sort_order : List String) (cards : List Card), cards ≠ [] →
      ∀ bad, firstUnknownCriterion sort_order = some bad →
      create_sorting_plan cards sort_order
        = .error ("Unknown sort criterion: " ++ bad) := by
  intro sort_order
  induction sort_order with
  | nil =>
      intro cards _ bad hbad
      simp only [firstUnknownCriterion] at hbad
      cases hbad
  | cons first rest ih =>
      intro cards hc bad hbad
      have hcE : ¬ cards.isEmpty = true := fun h => hc (List.isEmpty_iff.mp h)
      simp only [firstUnknownCriterion] at hbad
      by_cases hl : (sort_criteria.lookup first).isNone = true
      · rw [if_pos hl] at hbad
        cases hbad
        have hnone : sort_criteria.lookup first = none :=
          Option.isNone_iff_eq_none.mp hl
        have hgc : group_cards_by_criterion cards first
            = .error ("Unknown sort criterion: " ++ first) := by
          unfold group_cards_by_criterion
          rw [hnone]
        simp only [create_sorting_plan]
        rw [if_neg hcE, hgc]
      · rw [if_neg hl] at hbad
        obtain ⟨f, hf⟩ : ∃ f, sort_criteria.lookup first = some f := by
          cases hlk : sort_criteria.lookup first with
          | none => rw [hlk] at hl; simp at hl
          | some f => exact ⟨f, rfl⟩
        have hgc : group_cards_by_criterion cards first = .ok (groupByKey cards f) := by
          unfold group_cards_by_criterion
          rw [hf]
        simp only [create_sorting_plan]
        rw [if_neg hcE, hgc]
        obtain ⟨b, bs, hbk⟩ : ∃ b bs, groupByKey cards f = b :: bs := by
          cases hg : groupByKey cards f with
          | nil => exact absurd hg (groupByKey_ne_nil f hc)
          | cons b bs => exact ⟨b, bs, rfl⟩
        rw [hbk]
        cases rest with
        | nil =>
            simp only [firstUnknownCriterion] at hbad
            cases hbad
        | cons r1 rs =>
            have hbne : b.2 ≠ [] :=
              groupByKey_entry_ne_nil b (by rw [hbk]; exact List.mem_cons_self b bs)
            have herr := ih b.2 hbne bad hbad
            have hpb : plan_bucket (fun gc => create_sorting_plan gc (r1 :: rs)) (r1 :: rs) b
                = .error ("Unknown sort criterion: " ++ bad) := by
              show (match create_sorting_plan b.2 (r1 :: rs) with
                    | .error e => (Except.error e : Except String SortGroup)
                    | .ok subs => .ok (make_plan_group b.1 b.2 (some subs))) = _
              rw [herr]
            have hmap : mapExcept
                (plan_bucket (fun gc => create_sorting_plan gc (r1 :: rs)) (r1 :: rs))
                (b :: bs) = .error ("Unknown sort criterion: " ++ bad) :=
              mapExcept_cons_error _ b bs _ hpb
            show (match mapExcept
                    (plan_bucket (fun gc => create_sorting_plan gc (r1 :: rs)) (r1 :: rs))
                    (b :: bs) with
                  | Except.error e => (Except.error e : Except String (List SortGroup))
                  | Except.ok sort_groups => Except.ok (sortGroupsDesc sort_groups)) = _
            rw [hmap]

/-- C9 (amended): when the card list and the criteria list are both
non-empty, `create_sorting_plan` fails with a `ValueError` naming the first
criterion outside the fixed library; when either input is empty it returns
the empty plan without any failure, even if the criteria list contains
unknown names (validation is skipped for empty inputs). -/
theorem create_sorting_plan_error_behavior
    (cards : List Card) (sort_order : List String) :
    ((cards = [] ∨ sort_order = []) → create_sorting_plan cards sort_order = .ok []) ∧
    (cards ≠ [] → ∀ bad, firstUnknownCriterion sort_order = some bad →
      create_sorting_plan cards sort_order
        = .error ("Unknown sort criterion: " ++ bad)) := by
  constructor
  · rintro (rfl | rfl)
    · cases sort_order with
      | nil => rfl
      | cons f r => rfl
    · rfl
  · exact fun hc bad hbad => plan_first_unknown sort_order cards hc bad hbad

/-- Counterexample to C9 as stated: `"Bogus"` is outside the fixed criteria
library, yet `create_sorting_plan` on an empty card list returns the empty
result instead of failing with a validation error. -/
theorem create_sorting_plan_error_behavior_counterexample :
    sort_criteria.lookup "Bogus" = none ∧
    create_sorting_plan ([] : List Card) ["Bogus"] = .ok [] :=
  ⟨rfl, rfl⟩

/-- Witness for C9 (amended): empty inputs give the empty plan, and a
reachable unknown criterion fails naming it. -/
theorem create_sorting_plan_error_behavior_witness :
    create_sorting_plan ([] : List Card) ["Bogus"] = .ok [] ∧
    create_sorting_plan scenarioACards ["Set", "Bogus"]
      = .error ("Unknown sort criterion: " ++ "Bogus") :=
  ⟨(create_sorting_plan_error_behavior [] ["Bogus"]).1 (Or.inl rfl),
   (create_sorting_plan_error_behavior scenarioACards ["Set", "Bogus"]).2
     (by decide) "Bogus" (by rfl)⟩

/-- C4 (the code evaluated at the failing input): the single-criterion plan
for Scenario A's cards is one leaf group "Alpha" whose `sub_groups`
attribute was never assigned; the stale path `["Alpha", "X"]` that descends
below that leaf raises `AttributeError` instead of returning the empty list
required by the specification. -/
theorem get_cards_at_path_attribute_error :
    get_cards_at_path (okGroups (create_sorting_plan scenarioACards ["Set"]))
        ["Alpha", "X"]
      = .error "AttributeError: 'SortGroup' object has no attribute 'sub_groups'" := by
  rfl

theorem processTicks_complete {α : Type} (nodes : List α) (cs : Nat) (hcs : 1 ≤ cs) :
    ∀ (ticks idx : Nat), 1 ≤ ticks → nodes.length ≤ idx + cs * ticks →
      processTicks nodes cs ticks idx
        = ((nodes.drop idx).map PopEvent.item) ++ [PopEvent.finished] := by
  intro ticks
  induction ticks with
  | zero => intro idx h; omega
  | succ t ih =>
      intro idx _ hlen
      rw [processTicks]
      by_cases hfit : nodes.length ≤ idx + cs
      · have hce : nodes.length ≤ min (idx + cs) nodes.length := le_min hfit le_rfl
        rw [if_pos hce]
        have htake : (nodes.drop idx).take (min (idx + cs) nodes.length - idx)
            = nodes.drop idx := by
          apply List.take_of_length_le
          rw [List.length_drop]
          omega
        rw [htake]
      · have hce : ¬ nodes.length ≤ min (idx + cs) nodes.length := by
          intro hcon
          exact hfit (le_trans hcon (min_le_left _ _))
        rw [if_neg hce]
        have hmin : min (idx + cs) nodes.length = idx + cs :=
          min_eq_left (le_of_lt (lt_of_not_le hfit))
        have ht1 : 1 ≤ t := by
          cases t with
          | zero => simp at hlen; omega
          | succ t' => exact Nat.succ_le_succ (Nat.zero_le _)
        have hmulsucc : cs * (t + 1) = cs * t + cs := Nat.mul_succ cs t
        rw [hmin, ih (idx + cs) ht1 (by omega)]
        have h1 : idx + cs - idx = cs := by omega
        rw [h1, ← List.append_assoc, ← List.map_append]
        have h2 : (nodes.drop idx).take cs ++ nodes.drop (idx + cs) = nodes.drop idx := by
          have h3 := List.take_append_drop cs (nodes.drop idx)
          rwa [List.drop_drop] at h3
        rw [h2]

theorem processTicks_cancelled {α : Type} (nodes : List α) (cs : Nat) :
    ∀ (ticks idx : Nat), idx + cs * ticks < nodes.length →
      processTicks nodes cs ticks idx
        = ((nodes.drop idx).take (cs * ticks)).map PopEvent.item := by
  intro ticks
  induction ticks with
  | zero => intro idx h; simp [processTicks]
  | succ t ih =>
      intro idx hlt
      rw [processTicks]
      have hmulsucc : cs * (t + 1) = cs * t + cs := Nat.mul_succ cs t
      have hfit : idx + cs < nodes.length := by omega
      have hmin : min (idx + cs) nodes.length = idx + cs := min_eq_left (le_of_lt hfit)
      have hce : ¬ nodes.length ≤ min (idx + cs) nodes.length := by rw [hmin]; omega
      rw [if_neg hce, hmin, ih (idx + cs) (by omega)]
      have h1 : idx + cs - idx = cs := by omega
      rw [h1, ← List.map_append]
      have h2 : cs * (t + 1) = cs + cs * t := by ring
      rw [h2, List.take_add]
      have h3 : (nodes.drop idx).drop cs = nodes.drop (idx + cs) := List.drop_drop cs idx nodes
      rw [h3]

/-- C3: with `chunk_size ≥ 1`, a progressive-population run that gets enough
timer ticks to finish materializes every node exactly once in the list's
original order and then fires `finished` exactly once, strictly after the
last item; a run whose ticks stop early (cancellation by a new populate or
by destruction of the widget stops the timer) materializes exactly the nodes
of the completed chunks, in order, and never fires `finished`. -/
theorem populate_run_spec {α : Type} (nodes : List α) (chunk_size ticks : Nat)
    (hcs : 1 ≤ chunk_size) :
    (1 ≤ ticks → nodes.length ≤ chunk_size * ticks →
      populate_run nodes chunk_size ticks
        = (nodes.map PopEvent.item) ++ [PopEvent.finished]) ∧
    (chunk_size * ticks < nodes.length →
      populate_run nodes chunk_size ticks
          = ((nodes.take (chunk_size * ticks)).map PopEvent.item) ∧
      PopEvent.finished ∉ populate_run nodes chunk_size ticks) := by
  constructor
  · intro ht hlen
    unfold populate_run
    rw [processTicks_complete nodes chunk_size hcs ticks 0 ht (by omega)]
    simp
  · intro hlt
    unfold populate_run
    have h := processTicks_cancelled nodes chunk_size ticks 0 (by omega)
    rw [h]
    simp only [List.drop_zero]
    refine ⟨trivial, ?_⟩
    intro hmem
    obtain ⟨a, _, ha⟩ := List.mem_map.mp hmem
    cases ha

/-- Witness for C3: three nodes, chunk size 2; two ticks complete the run
(items in order then `finished`); one tick is a cancelled run (first chunk
only, no `finished`). -/
theorem populate_run_spec_witness :
    populate_run [1, 2, 3] 2 2
        = (([1, 2, 3] : List Nat).map PopEvent.item) ++ [PopEvent.finished] ∧
    populate_run [1, 2, 3] 2 1
        = ((([1, 2, 3] : List Nat).take 2).map PopEvent.item) :=
  ⟨(populate_run_spec [1, 2, 3] 2 2 (by decide)).1 (by decide) (by decide),
   ((populate_run_spec [1, 2, 3] 2 1 (by decide)).2 (by decide)).1⟩

/-- Counterexample to C8: with per-letter counts Q:2, X:1, Z:1 and
threshold 20, the adjacency-preserving policy does NOT map 'Q' to a combined
pile "QXZ". -/
theorem grouped_letter_plan_scenarioB_counterexample :
    (create_grouped_letter_plan scenarioBCards 20).2.lookup 'Q' ≠ some "QXZ" := by
  decide

/-- C8 (amended): with per-letter counts Q:2, X:1, Z:1 and threshold 20 the
adjacency-preserving accumulation produces three solo piles "Q", "X", "Z",
each letter mapping to itself: the zero-count letters between Q, X and Z
break every accumulation run (the buffer is flushed whenever the next letter
is not itself low), so no combined pile "QXZ" ever forms. -/
theorem grouped_letter_plan_scenarioB :
    (create_grouped_letter_plan scenarioBCards 20).2
        = [('Q', "Q"), ('X', "X"), ('Z', "Z")] ∧
    (create_grouped_letter_plan scenarioBCards 20).1.map SortGroup.group_name
        = ["Q", "X", "Z"] :=
  ⟨rfl, rfl⟩

theorem assoc_lookup_eq_none {β : Type} {l : List (Char × β)} {a : Char}
    (h : a ∉ l.map Prod.fst) : l.lookup a = none := by
  induction l with
  | nil => rfl
  | cons p t ih =>
      obtain ⟨k, b⟩ := p
      simp only [List.map_cons, List.mem_cons] at h
      push_neg at h
      rw [List.lookup_cons]
      have hk : (a == k) = false := beq_eq_false_iff_ne.mpr h.1
      rw [hk]
      exact ih h.2

theorem assoc_lookup_mem {β : Type} {l : List (Char × β)} {a : Char}
    (h : a ∈ l.map Prod.fst) : ∃ b, l.lookup a = some b ∧ (a, b) ∈ l := by
  induction l with
  | nil => cases h
  | cons p t ih =>
      obtain ⟨k, b⟩ := p
      by_cases hk : a = k
      · subst hk
        refine ⟨b, ?_, List.mem_cons_self _ _⟩
        rw [List.lookup_cons, beq_self_eq_true]
      · simp only [List.map_cons, List.mem_cons] at h
        rcases h with h | h
        · exact absurd h hk
        · obtain ⟨b', hb', hmem⟩ := ih h
          refine ⟨b', ?_, List.mem_cons_of_mem _ hmem⟩
          rw [List.lookup_cons, beq_eq_false_iff_ne.mpr hk]
          exact hb'

theorem assoc_lookup_append_some {β : Type} {l₁ : List (Char × β)} (l₂ : List (Char × β))
    {a : Char} {b : β} (h : l₁.lookup a = some b) : (l₁ ++ l₂).lookup a = some b := by
  induction l₁ with
  | nil => cases h
  | cons p t ih =>
      obtain ⟨k, v⟩ := p
      rw [List.lookup_cons] at h
      rw [List.cons_append, List.lookup_cons]
      cases hk : (a == k) with
      | true => rw [hk] at h; exact h
      | false => rw [hk] at h; exact ih h

theorem assoc_lookup_append_none {β : Type} {l₁ : List (Char × β)} (l₂ : List (Char × β))
    {a : Char} (h : l₁.lookup a = none) : (l₁ ++ l₂).lookup a = l₂.lookup a := by
  induction l₁ with
  | nil => rfl
  | cons p t ih =>
      obtain ⟨k, v⟩ := p
      rw [List.lookup_cons] at h
      rw [List.cons_append, List.lookup_cons]
      cases hk : (a == k) with
      | true => rw [hk] at h; cases h
      | false => rw [hk] at h; exact ih h

theorem keyed_map_lookup {l : List (Char × Int)} (g : Char → String) {a : Char}
    (h : a ∈ l.map Prod.fst) :
    (l.map (fun lc => (lc.1, g lc.1))).lookup a = some (g a) := by
  induction l with
  | nil => cases h
  | cons p t ih =>
      obtain ⟨k, v⟩ := p
      by_cases hk : a = k
      · subst hk
        rw [List.map_cons, List.lookup_cons, beq_self_eq_true]
      · simp only [List.map_cons, List.mem_cons] at h
        rcases h with h | h
        · exact absurd h hk
        · rw [List.map_cons, List.lookup_cons, beq_eq_false_iff_ne.mpr hk]
          exact ih h

theorem const_map_lookup {l : List (Char × Int)} (v : String) {a : Char}
    (h : a ∈ l.map Prod.fst) :
    (l.map (fun lc => (lc.1, v))).lookup a = some v := by
  induction l with
  | nil => cases h
  | cons p t ih =>
      obtain ⟨k, c⟩ := p
      by_cases hk : a = k
      · subst hk
        rw [List.map_cons, List.lookup_cons, beq_self_eq_true]
      · simp only [List.map_cons, List.mem_cons] at h
        rcases h with h | h
        · exact absurd h hk
        · rw [List.map_cons, List.lookup_cons, beq_eq_false_iff_ne.mpr hk]
          exact ih h

theorem keyed_map_keys (l : List (Char × Int)) (g : Char → String) :
    (l.map (fun lc => (lc.1, g lc.1))).map Prod.fst = l.map Prod.fst := by
  simp [List.map_map, Function.comp]

theorem insertCharAsc_perm (c : Char) (l : List Char) :
    (insertCharAsc c l).Perm (c :: l) := by
  induction l with
  | nil => simp [insertCharAsc]
  | cons d t ih =>
      rw [insertCharAsc]
      by_cases hc : d < c
      · rw [if_pos hc]
        exact (ih.cons d).trans (List.Perm.swap c d t)
      · rw [if_neg hc]

theorem sortCharsAsc_perm (l : List Char) : (sortCharsAsc l).Perm l := by
  induction l with
  | nil => rfl
  | cons c t ih =>
      rw [sortCharsAsc]
      exact (insertCharAsc_perm c (sortCharsAsc t)).trans (ih.cons c)

theorem insertCountDesc_perm (x : Char × Int) (l : List (Char × Int)) :
    (insertCountDesc x l).Perm (x :: l) := by
  induction l with
  | nil => simp [insertCountDesc]
  | cons h t ih =>
      rw [insertCountDesc]
      by_cases hc : x.2 < h.2
      · rw [if_pos hc]
        exact (ih.cons h).trans (List.Perm.swap x h t)
      · rw [if_neg hc]

theorem sortCountsDesc_perm (l : List (Char × Int)) : (sortCountsDesc l).Perm l := by
  induction l with
  | nil => rfl
  | cons h t ih =>
      rw [sortCountsDesc]
      exact (insertCountDesc_perm h (sortCountsDesc t)).trans (ih.cons h)

theorem uppercase_nodup : uppercaseLetters.Nodup := by decide

theorem map_fst_pair_const {β : Type} (l : List Char) (v : β) :
    (l.map (fun ch => (ch, v))).map Prod.fst = l := by
  induction l with
  | nil => rfl
  | cons c t ih => simp only [List.map_cons, ih]

theorem flushEntries_keys (buffer : List Char) :
    (flushEntries buffer).map Prod.fst = buffer :=
  map_fst_pair_const buffer _

theorem flushEntries_mem {buffer : List Char} {e : Char × String}
    (h : e ∈ flushEntries buffer) : e.1 ∈ e.2.data := by
  simp only [flushEntries, List.mem_map] at h
  obtain ⟨ch, hch, he⟩ := h
  subst he
  exact hch

theorem groupedScan_keys (counts : Char → Int) (t : Int) :
    ∀ (letters buffer : List Char) (btot : Int),
      (groupedScan counts t letters buffer btot).map Prod.fst
        = buffer ++ letters.filter (fun ℓ => 0 < counts ℓ) := by
  intro letters
  induction letters with
  | nil =>
      intro buffer btot
      simp [groupedScan, flushEntries_keys]
  | cons letter rest ih =>
      intro buffer btot
      simp only [groupedScan]
      split
      · rename_i hlow
        split
        · simp only [List.map_append, flushEntries_keys, ih, List.filter_cons]
          have hpos : decide (0 < counts letter) = true := decide_eq_true hlow.1
          rw [hpos]
          simp
        · rw [ih]
          have hpos : decide (0 < counts letter) = true := decide_eq_true hlow.1
          simp [List.filter_cons, hpos]
      · rename_i hnotlow
        by_cases hpos : 0 < counts letter
        · rw [if_pos hpos]
          simp only [List.map_append, flushEntries_keys, ih, List.filter_cons,
            decide_eq_true hpos]
          simp
        · rw [if_neg hpos]
          have hneg : decide (0 < counts letter) = false := decide_eq_false hpos
          simp only [List.map_append, flushEntries_keys, ih, List.filter_cons, hneg]
          simp

theorem groupedScan_mem_name (counts : Char → Int) (t : Int) :
    ∀ (letters buffer : List Char) (btot : Int) (e : Char × String),
      e ∈ groupedScan counts t letters buffer btot → e.1 ∈ e.2.data := by
  intro letters
  induction letters with
  | nil =>
      intro buffer btot e he
      rw [groupedScan] at he
      exact flushEntries_mem he
  | cons letter rest ih =>
      intro buffer btot e he
      simp only [groupedScan] at he
      split at he
      · split at he
        · rcases List.mem_append.mp he with h | h
          · exact flushEntries_mem h
          · exact ih _ _ e h
        · exact ih _ _ e he
      · rcases List.mem_append.mp he with h | h
        · rcases List.mem_append.mp h with h2 | h2
          · exact flushEntries_mem h2
          · split at h2
            · rcases List.mem_cons.mp h2 with h3 | h3
              · subst h3; simp
              · cases h3
            · cases h2
        · exact ih _ _ e h

theorem grouped_mapping_pos (counts : Char → Int) (t : Int) {ℓ : Char}
    (hup : ℓ ∈ uppercaseLetters) (hpos : 0 < counts ℓ) :
    ∃ p, (grouped_letter_mapping counts t).lookup ℓ = some p ∧ ℓ ∈ p.data := by
  have hmem : ℓ ∈ (grouped_letter_mapping counts t).map Prod.fst := by
    unfold grouped_letter_mapping
    rw [groupedScan_keys]
    simp only [List.nil_append]
    exact List.mem_filter.mpr ⟨hup, decide_eq_true hpos⟩
  obtain ⟨p, hp, hmem2⟩ := assoc_lookup_mem hmem
  exact ⟨p, hp, groupedScan_mem_name counts t _ _ _ (ℓ, p) hmem2⟩

theorem grouped_mapping_nonpos (counts : Char → Int) (t : Int) {ℓ : Char}
    (hz : ¬ 0 < counts ℓ) :
    (grouped_letter_mapping counts t).lookup ℓ = none := by
  apply assoc_lookup_eq_none
  unfold grouped_letter_mapping
  rw [groupedScan_keys]
  simp only [List.nil_append]
  intro hmem
  exact hz (of_decide_eq_true (List.mem_filter.mp hmem).2)

theorem map_fst_pair_fn {β : Type} (l : List Char) (g : Char → β) :
    (l.map (fun ch => (ch, g ch))).map Prod.fst = l := by
  induction l with
  | nil => rfl
  | cons c t ih => simp only [List.map_cons, ih]

theorem letterCountsSorted_mem {counts : Char → Int} {e : Char × Int}
    (h : e ∈ letterCountsSorted counts) :
    e.2 = counts e.1 ∧ e.1 ∈ uppercaseLetters := by
  have hm := (sortCountsDesc_perm _).mem_iff.mp h
  obtain ⟨l, hl, he⟩ := List.mem_map.mp hm
  cases he
  exact ⟨rfl, hl⟩

theorem letterCountsSorted_mem_of (counts : Char → Int) {ℓ : Char}
    (h : ℓ ∈ uppercaseLetters) : (ℓ, counts ℓ) ∈ letterCountsSorted counts :=
  (sortCountsDesc_perm _).mem_iff.mpr (List.mem_map_of_mem _ h)

theorem letterCountsSorted_keys_nodup (counts : Char → Int) :
    ((letterCountsSorted counts).map Prod.fst).Nodup := by
  have hperm : (((letterCountsSorted counts).map Prod.fst)).Perm
      ((uppercaseLetters.map (fun l => (l, counts l))).map Prod.fst) :=
    (sortCountsDesc_perm _).map Prod.fst
  rw [map_fst_pair_fn] at hperm
  exact hperm.nodup_iff.mpr uppercase_nodup

theorem highLetters_mem {counts : Char → Int} {t : Int} {e : Char × Int}
    (h : e ∈ highLetters counts t) :
    e.2 = counts e.1 ∧ e.1 ∈ uppercaseLetters ∧ t ≤ e.2 := by
  have hm := List.mem_filter.mp h
  obtain ⟨h1, h2⟩ := letterCountsSorted_mem hm.1
  exact ⟨h1, h2, of_decide_eq_true hm.2⟩

theorem lowLetters_mem {counts : Char → Int} {t : Int} {e : Char × Int}
    (h : e ∈ lowLetters counts t) :
    e.2 = counts e.1 ∧ e.1 ∈ uppercaseLetters ∧ 0 < e.2 ∧ e.2 < t := by
  have hm := List.mem_filter.mp h
  obtain ⟨h1, h2⟩ := letterCountsSorted_mem hm.1
  exact ⟨h1, h2, of_decide_eq_true hm.2⟩

theorem highLetters_mem_of {counts : Char → Int} {t : Int} {ℓ : Char}
    (hup : ℓ ∈ uppercaseLetters) (h : t ≤ counts ℓ) :
    (ℓ, counts ℓ) ∈ highLetters counts t :=
  List.mem_filter.mpr ⟨letterCountsSorted_mem_of counts hup, decide_eq_true h⟩

theorem lowLetters_mem_of {counts : Char → Int} {t : Int} {ℓ : Char}
    (hup : ℓ ∈ uppercaseLetters) (h : 0 < counts ℓ ∧ counts ℓ < t) :
    (ℓ, counts ℓ) ∈ lowLetters counts t :=
  List.mem_filter.mpr ⟨letterCountsSorted_mem_of counts hup, decide_eq_true h⟩

theorem lowLetters_keys_nodup (counts : Char → Int) (t : Int) :
    ((lowLetters counts t).map Prod.fst).Nodup :=
  (letterCountsSorted_keys_nodup counts).sublist
    ((List.filter_sublist _).map Prod.fst)

theorem findBestBinAux_spec (count capacity : Int) :
    ∀ (bins : List (List (Char × Int))) (i : Nat) (best : Option (Nat × Int))
      (res : Nat × Int),
      findBestBinAux count capacity bins i best = some res →
      best = some res ∨
      ∃ j b, res.1 = i + j ∧ bins.get? j = some b ∧ b.length < 3 ∧
        binSum b + count ≤ capacity := by
  intro bins
  induction bins with
  | nil =>
      intro i best res h
      rw [findBestBinAux] at h
      exact Or.inl h
  | cons bin bins ih =>
      intro i best res h
      rw [findBestBinAux] at h
      by_cases hfull : 3 ≤ bin.length
      · rw [if_pos hfull] at h
        rcases ih (i + 1) best res h with h1 | ⟨j, b, hj, hb, hlen, hsum⟩
        · exact Or.inl h1
        · exact Or.inr ⟨j + 1, b, by omega, hb, hlen, hsum⟩
      · rw [if_neg hfull] at h
        simp only [] at h
        by_cases hfit : binSum bin + count ≤ capacity
        · rw [if_pos hfit] at h
          cases best with
          | none =>
              rcases ih (i + 1) _ res h with h1 | ⟨j, b, hj, hb, hlen, hsum⟩
              · cases h1
                exact Or.inr ⟨0, bin, by simp, rfl, by omega, hfit⟩
              · exact Or.inr ⟨j + 1, b, by omega, hb, hlen, hsum⟩
          | some pr =>
              obtain ⟨bi, br⟩ := pr
              simp only [] at h
              by_cases hbetter : capacity - (binSum bin + count) < br
              · rw [if_pos hbetter] at h
                rcases ih (i + 1) _ res h with h1 | ⟨j, b, hj, hb, hlen, hsum⟩
                · cases h1
                  exact Or.inr ⟨0, bin, by simp, rfl, by omega, hfit⟩
                · exact Or.inr ⟨j + 1, b, by omega, hb, hlen, hsum⟩
              · rw [if_neg hbetter] at h
                rcases ih (i + 1) _ res h with h1 | ⟨j, b, hj, hb, hlen, hsum⟩
                · exact Or.inl h1
                · exact Or.inr ⟨j + 1, b, by omega, hb, hlen, hsum⟩
        · rw [if_neg hfit] at h
          rcases ih (i + 1) best res h with h1 | ⟨j, b, hj, hb, hlen, hsum⟩
          · exact Or.inl h1
          · exact Or.inr ⟨j + 1, b, by omega, hb, hlen, hsum⟩

theorem findBestBin_spec {bins : List (List (Char × Int))} {count capacity : Int} {i : Nat}
    (h : findBestBin bins count capacity = some i) :
    ∃ b, bins.get? i = some b ∧ b.length < 3 ∧ binSum b + count ≤ capacity := by
  unfold findBestBin at h
  cases haux : findBestBinAux count capacity bins 0 none with
  | none => rw [haux] at h; cases h
  | some res =>
      rw [haux] at h
      simp only [Option.map_some', Option.some.injEq] at h
      rcases findBestBinAux_spec count capacity bins 0 none res haux with h1 | ⟨j, b, hj, hb, hlen, hsum⟩
      · cases h1
      · refine ⟨b, ?_, hlen, hsum⟩
        have : i = j := by omega
        rw [this]
        exact hb

theorem addToBinAt_mem :
    ∀ (bins : List (List (Char × Int))) (i : Nat) (item : Char × Int)
      (b' : List (Char × Int)),
      b' ∈ addToBinAt bins i item →
      b' ∈ bins ∨ ∃ b, bins.get? i = some b ∧ b' = b ++ [item] := by
  intro bins
  induction bins with
  | nil =>
      intro i item b' h
      cases h
  | cons bin bins ih =>
      intro i item b' h
      cases i with
      | zero =>
          rw [addToBinAt] at h
          rcases List.mem_cons.mp h with h1 | h1
          · exact Or.inr ⟨bin, rfl, h1⟩
          · exact Or.inl (List.mem_cons_of_mem _ h1)
      | succ n =>
          rw [addToBinAt] at h
          rcases List.mem_cons.mp h with h1 | h1
          · exact Or.inl (h1 ▸ List.mem_cons_self _ _)
          · rcases ih n item b' h1 with h2 | ⟨b, hb, he⟩
            · exact Or.inl (List.mem_cons_of_mem _ h2)
            · exact Or.inr ⟨b, hb, he⟩

theorem addToBinAt_flatten :
    ∀ (bins : List (List (Char × Int))) (i : Nat) (item : Char × Int)
      (b : List (Char × Int)), bins.get? i = some b →
      ((addToBinAt bins i item).flatten).Perm (bins.flatten ++ [item]) := by
  intro bins
  induction bins with
  | nil =>
      intro i item b h
      cases h
  | cons bin bins ih =>
      intro i item b h
      cases i with
      | zero =>
          rw [addToBinAt]
          simp only [List.flatten_cons]
          have h1 : (bin ++ [item]) ++ bins.flatten = bin ++ ([item] ++ bins.flatten) := by
            simp
          have h2 : (bin ++ ([item] ++ bins.flatten)).Perm
              (bin ++ (bins.flatten ++ [item])) :=
            List.Perm.append_left bin List.perm_append_comm
          have h3 : bin ++ (bins.flatten ++ [item]) = (bin ++ bins.flatten) ++ [item] := by
            simp
          exact h1 ▸ (h3 ▸ h2)
      | succ n =>
          rw [addToBinAt]
          simp only [List.flatten_cons]
          have hget : bins.get? n = some b := h
          have h2 : (bin ++ (addToBinAt bins n item).flatten).Perm
              (bin ++ (bins.flatten ++ [item])) :=
            List.Perm.append_left bin (ih n item b hget)
          have h3 : bin ++ (bins.flatten ++ [item]) = (bin ++ bins.flatten) ++ [item] := by
            simp
          exact h3 ▸ h2

theorem binPack_flatten (capacity : Int) :
    ∀ (l : List (Char × Int)) (bins : List (List (Char × Int))),
      (((l.foldl (fun bins item =>
          match findBestBin bins item.2 capacity with
          | some i => addToBinAt bins i item
          | none => bins ++ [[item]]) bins)).flatten).Perm (bins.flatten ++ l) := by
  intro l
  induction l with
  | nil => intro bins; simp
  | cons item items ih =>
      intro bins
      simp only [List.foldl_cons]
      refine (ih _).trans ?_
      have hstep : ((match findBestBin bins item.2 capacity with
          | some i => addToBinAt bins i item
          | none => bins ++ [[item]]).flatten).Perm (bins.flatten ++ [item]) := by
        cases hfb : findBestBin bins item.2 capacity with
        | some i =>
            obtain ⟨b, hb, _, _⟩ := findBestBin_spec hfb
            exact addToBinAt_flatten bins i item b hb
        | none => simp
      have h1 := hstep.append_right items
      have h2 : (bins.flatten ++ [item]) ++ items = bins.flatten ++ (item :: items) := by
        simp
      exact h1.trans (h2 ▸ List.Perm.refl _)

theorem binPack_inv (capacity : Int) :
    ∀ (l : List (Char × Int)) (bins : List (List (Char × Int))),
      (∀ e ∈ l, e.2 ≤ capacity) →
      (∀ b ∈ bins, b ≠ [] ∧ b.length ≤ 3 ∧ binSum b ≤ capacity) →
      ∀ b ∈ (l.foldl (fun bins item =>
          match findBestBin bins item.2 capacity with
          | some i => addToBinAt bins i item
          | none => bins ++ [[item]]) bins),
        b ≠ [] ∧ b.length ≤ 3 ∧ binSum b ≤ capacity := by
  intro l
  induction l with
  | nil =>
      intro bins _ hinv b hb
      exact hinv b hb
  | cons item items ih =>
      intro bins hl hinv b hb
      simp only [List.foldl_cons] at hb
      refine ih _ (fun e he => hl e (List.mem_cons_of_mem _ he)) ?_ b hb
      intro b' hb'
      cases hfb : findBestBin bins item.2 capacity with
      | some i =>
          rw [hfb] at hb'
          rcases addToBinAt_mem bins i item b' hb' with h2 | ⟨bb, hbb, he⟩
          · exact hinv b' h2
          · obtain ⟨bb', hbb', hlen, hsum⟩ := findBestBin_spec hfb
            have hbeq : bb = bb' := by
              have := hbb.symm.trans hbb'
              exact Option.some_injective _ this
            subst hbeq
            subst he
            refine ⟨by simp, ?_, ?_⟩
            · simp only [List.length_append, List.length_cons, List.length_nil]
              omega
            · have : binSum (bb ++ [item]) = binSum bb + item.2 := by
                simp [binSum]
              rw [this]
              exact hsum
      | none =>
          rw [hfb] at hb'
          rcases List.mem_append.mp hb' with h2 | h2
          · exact hinv b' h2
          · have : b' = [item] := by simpa using h2
            subst this
            refine ⟨by simp, by simp, ?_⟩
            have : binSum [item] = item.2 := by simp [binSum]
            rw [this]
            exact hl item (List.mem_cons_self _ _)

theorem optimal_bin_packing_flatten (items : List (Char × Int)) (capacity : Int) :
    ((optimal_bin_packing items capacity).flatten).Perm items := by
  unfold optimal_bin_packing
  by_cases hi : items.isEmpty = true
  · rw [if_pos hi, List.isEmpty_iff.mp hi]
    simp
  · rw [if_neg hi]
    refine (binPack_flatten capacity (sortCountsDesc items) []).trans ?_
    simpa using sortCountsDesc_perm items

theorem optimal_bin_packing_inv (items : List (Char × Int)) (capacity : Int)
    (hcap : ∀ e ∈ items, e.2 ≤ capacity) :
    ∀ b ∈ optimal_bin_packing items capacity,
      b ≠ [] ∧ b.length ≤ 3 ∧ binSum b ≤ capacity := by
  unfold optimal_bin_packing
  by_cases hi : items.isEmpty = true
  · rw [if_pos hi]
    intro b hb
    cases hb
  · rw [if_neg hi]
    exact binPack_inv capacity (sortCountsDesc items) []
      (fun e he => hcap e ((sortCountsDesc_perm items).mem_iff.mp he))
      (fun b hb => absurd hb (List.not_mem_nil b))

theorem const_map_keys (l : List (Char × Int)) (v : String) :
    (l.map (fun lc => (lc.1, v))).map Prod.fst = l.map Prod.fst := by
  induction l with
  | nil => rfl
  | cons p t ih => simp only [List.map_cons, ih]

theorem char_map_lookup {l : List Char} (g : Char → String) {a : Char} (h : a ∈ l) :
    (l.map (fun c => (c, g c))).lookup a = some (g a) := by
  induction l with
  | nil => cases h
  | cons c t ih =>
      by_cases hc : a = c
      · subst hc
        rw [List.map_cons, List.lookup_cons, beq_self_eq_true]
      · rcases List.mem_cons.mp h with h1 | h1
        · exact absurd h1 hc
        · rw [List.map_cons, List.lookup_cons, beq_eq_false_iff_ne.mpr hc]
          exact ih h1

theorem bin_elem_low {counts : Char → Int} {t : Int} {B : List (Char × Int)}
    {e : Char × Int} (hB : B ∈ optimal_bin_packing (lowLetters counts t) t)
    (he : e ∈ B) : e ∈ lowLetters counts t :=
  (optimal_bin_packing_flatten _ _).mem_iff.mp (List.mem_flatten.mpr ⟨B, hB, he⟩)

theorem bins_keys_nodup (counts : Char → Int) (t : Int) :
    ((((optimal_bin_packing (lowLetters counts t) t)).flatten).map Prod.fst).Nodup := by
  have hperm := (optimal_bin_packing_flatten (lowLetters counts t) t).map Prod.fst
  exact hperm.nodup_iff.mpr (lowLetters_keys_nodup counts t)

theorem bin_keys_nodup {counts : Char → Int} {t : Int} {B : List (Char × Int)}
    (hB : B ∈ optimal_bin_packing (lowLetters counts t) t) :
    (B.map Prod.fst).Nodup := by
  have hnd := bins_keys_nodup counts t
  rw [List.map_flatten] at hnd
  exact (List.nodup_flatten.mp hnd).1 _ (List.mem_map_of_mem _ hB)

theorem binName_eq_singleton {B : List (Char × Int)} {x : Char}
    (h : binName B = (⟨[x]⟩ : String)) : B.map Prod.fst = [x] := by
  have h' : sortCharsAsc (B.map Prod.fst) = [x] := congrArg String.data h
  have hperm : (B.map Prod.fst).Perm [x] :=
    (sortCharsAsc_perm _).symm.trans (h' ▸ List.Perm.refl _)
  exact List.perm_singleton.mp hperm

theorem binName_keys_perm {B B' : List (Char × Int)} (h : binName B' = binName B) :
    (B'.map Prod.fst).Perm (B.map Prod.fst) := by
  have h' : sortCharsAsc (B'.map Prod.fst) = sortCharsAsc (B.map Prod.fst) :=
    congrArg String.data h
  exact ((sortCharsAsc_perm _).symm.trans (h' ▸ List.Perm.refl _)).trans (sortCharsAsc_perm _)

theorem bins_lookup :
    ∀ (bins : List (List (Char × Int))),
      (((bins.flatten).map Prod.fst)).Nodup →
      ∀ B ∈ bins, ∀ m ∈ B.map Prod.fst,
        (bins.flatMap binEntries).lookup m = some (binName B) := by
  intro bins
  induction bins with
  | nil =>
      intro _ B hB
      cases hB
  | cons bhead btail ih =>
      intro hnd B hB m hm
      rw [List.flatten_cons, List.map_append] at hnd
      rw [List.flatMap_cons]
      rcases List.mem_cons.mp hB with hB1 | hB1
      · subst hB1
        apply assoc_lookup_append_some
        exact const_map_lookup (binName B) hm
      · have hmtail : m ∈ (btail.flatten).map Prod.fst := by
          obtain ⟨e, he, hee⟩ := List.mem_map.mp hm
          subst hee
          exact List.mem_map_of_mem _ (List.mem_flatten.mpr ⟨B, hB1, he⟩)
        have hdisj : m ∉ bhead.map Prod.fst := by
          intro hmem
          exact (List.nodup_append.mp hnd).2.2 hmem hmtail
        have hnone : (binEntries bhead).lookup m = none := by
          apply assoc_lookup_eq_none
          have hk : (binEntries bhead).map Prod.fst = bhead.map Prod.fst :=
            const_map_keys bhead (binName bhead)
          rw [hk]
          exact hdisj
        rw [assoc_lookup_append_none _ hnone]
        exact ih (List.nodup_append.mp hnd).2.1 B hB1 m hm

theorem not_mem_high_keys {counts : Char → Int} {t : Int} {m : Char}
    (h : ¬ t ≤ counts m) :
    m ∉ ((highLetters counts t).map (fun lc => (lc.1, (⟨[lc.1]⟩ : String)))).map Prod.fst := by
  have hk : ((highLetters counts t).map (fun lc => (lc.1, (⟨[lc.1]⟩ : String)))).map Prod.fst
      = (highLetters counts t).map Prod.fst := by
    rw [List.map_map]
    rfl
  rw [hk]
  intro hmem
  obtain ⟨e, he, hee⟩ := List.mem_map.mp hmem
  obtain ⟨h1, _, h3⟩ := highLetters_mem he
  rw [h1, hee] at h3
  exact h h3

theorem not_mem_bin_keys {counts : Char → Int} {t : Int} {m : Char}
    (h : ¬ (0 < counts m ∧ counts m < t)) :
    m ∉ (((optimal_bin_packing (lowLetters counts t) t).flatMap binEntries)).map Prod.fst := by
  intro hmem
  obtain ⟨e, he, hee⟩ := List.mem_map.mp hmem
  obtain ⟨B, hB, heB⟩ := List.mem_flatMap.mp he
  obtain ⟨lc, hlc, helc⟩ := List.mem_map.mp heB
  obtain ⟨h1, _, h3, h4⟩ := lowLetters_mem (bin_elem_low hB hlc)
  apply h
  have hm : lc.1 = m := by rw [← hee, ← helc]
  rw [← hm, ← h1]
  exact ⟨h3, h4⟩

theorem mappingHL_lookup_high {counts : Char → Int} {t : Int} {ℓ : Char}
    (hup : ℓ ∈ uppercaseLetters) (hh : t ≤ counts ℓ) :
    (mappingHL counts t).lookup ℓ = some (⟨[ℓ]⟩ : String) := by
  unfold mappingHL
  apply assoc_lookup_append_some
  exact keyed_map_lookup (fun c => (⟨[c]⟩ : String))
    (List.mem_map_of_mem _ (highLetters_mem_of hup hh))

theorem mappingHL_lookup_low {counts : Char → Int} {t : Int} {ℓ : Char}
    (hup : ℓ ∈ uppercaseLetters) (hl : 0 < counts ℓ ∧ counts ℓ < t) :
    ∃ B ∈ optimal_bin_packing (lowLetters counts t) t,
      ℓ ∈ B.map Prod.fst ∧ (mappingHL counts t).lookup ℓ = some (binName B) := by
  have hmem : (ℓ, counts ℓ) ∈ lowLetters counts t := lowLetters_mem_of hup hl
  have hfl : (ℓ, counts ℓ) ∈ (optimal_bin_packing (lowLetters counts t) t).flatten :=
    (optimal_bin_packing_flatten _ _).mem_iff.mpr hmem
  obtain ⟨B, hB, hBe⟩ := List.mem_flatten.mp hfl
  refine ⟨B, hB, List.mem_map_of_mem _ hBe, ?_⟩
  unfold mappingHL
  rw [assoc_lookup_append_none _ (assoc_lookup_eq_none (not_mem_high_keys (by omega)))]
  exact bins_lookup _ (bins_keys_nodup counts t) B hB ℓ (List.mem_map_of_mem _ hBe)

theorem mappingHL_lookup_of_mem_bin {counts : Char → Int} {t : Int} {m : Char}
    {B : List (Char × Int)} (hB : B ∈ optimal_bin_packing (lowLetters counts t) t)
    (hm : m ∈ B.map Prod.fst) :
    (mappingHL counts t).lookup m = some (binName B) := by
  have hlow : 0 < counts m ∧ counts m < t := by
    obtain ⟨e, he, hee⟩ := List.mem_map.mp hm
    obtain ⟨h1, _, h3, h4⟩ := lowLetters_mem (bin_elem_low hB he)
    rw [← hee, ← h1]
    exact ⟨h3, h4⟩
  unfold mappingHL
  rw [assoc_lookup_append_none _ (assoc_lookup_eq_none (not_mem_high_keys (by omega)))]
  exact bins_lookup _ (bins_keys_nodup counts t) B hB m hm

theorem mappingHL_lookup_zero {counts : Char → Int} {t : Int} {m : Char}
    (h1 : ¬ t ≤ counts m) (h2 : ¬ (0 < counts m ∧ counts m < t)) :
    (mappingHL counts t).lookup m = none := by
  unfold mappingHL
  rw [assoc_lookup_append_none _ (assoc_lookup_eq_none (not_mem_high_keys h1))]
  exact assoc_lookup_eq_none (not_mem_bin_keys h2)

theorem optimal_lookup_of_HL {counts : Char → Int} {t : Int} {m : Char} {p : String}
    (h : (mappingHL counts t).lookup m = some p) :
    (optimal_letter_mapping counts t).lookup m = some p := by
  unfold optimal_letter_mapping
  exact assoc_lookup_append_some _ h

theorem optimal_lookup_of_HL_none {counts : Char → Int} {t : Int} {m : Char}
    (hup : m ∈ uppercaseLetters) (h : (mappingHL counts t).lookup m = none) :
    (optimal_letter_mapping counts t).lookup m = some (⟨[m]⟩ : String) := by
  unfold optimal_letter_mapping
  rw [assoc_lookup_append_none _ h]
  refine char_map_lookup (fun c => (⟨[c]⟩ : String)) ?_
  refine List.mem_filter.mpr ⟨hup, ?_⟩
  rw [h]
  rfl

theorem optimal_lookup_cases (counts : Char → Int) (t : Int) (ht : 0 < t) {m : Char}
    (hup : m ∈ uppercaseLetters) :
    (t ≤ counts m ∧
      (optimal_letter_mapping counts t).lookup m = some (⟨[m]⟩ : String)) ∨
    ((0 < counts m ∧ counts m < t) ∧
      ∃ B ∈ optimal_bin_packing (lowLetters counts t) t,
        m ∈ B.map Prod.fst ∧
        (optimal_letter_mapping counts t).lookup m = some (binName B)) ∨
    (counts m ≤ 0 ∧
      (optimal_letter_mapping counts t).lookup m = some (⟨[m]⟩ : String)) := by
  by_cases hh : t ≤ counts m
  · exact Or.inl ⟨hh, optimal_lookup_of_HL (mappingHL_lookup_high hup hh)⟩
  · by_cases hlow : 0 < counts m ∧ counts m < t
    · obtain ⟨B, hB, hkey, hlk⟩ := mappingHL_lookup_low hup hlow
      exact Or.inr (Or.inl ⟨hlow, B, hB, hkey, optimal_lookup_of_HL hlk⟩)
    · refine Or.inr (Or.inr ⟨by omega, ?_⟩)
      exact optimal_lookup_of_HL_none hup (mappingHL_lookup_zero hh hlow)

/-- C5 (amended): for every count assignment and positive threshold, the
simple policy maps all 26 letters to themselves; the optimal policy's
mapping is defined on all 26 letters, each letter's pile name contains that
letter, and zero-count letters map to themselves; the adjacency policy's
mapping is defined exactly on the letters with positive count (each mapping
to a pile whose name contains it) — zero-count letters are absent from it
rather than mapped to themselves (card bucketing falls back to the identity
via `mapping.get(first_letter, first_letter)`). -/
theorem letter_mapping_totality
    (counts : Char → Int) (threshold : Int) (ht : 0 < threshold)
    (ℓ : Char) (hℓ : ℓ ∈ uppercaseLetters) :
    simple_letter_mapping.lookup ℓ = some (⟨[ℓ]⟩ : String) ∧
    (∃ p, (optimal_letter_mapping counts threshold).lookup ℓ = some p ∧ ℓ ∈ p.data ∧
        (counts ℓ = 0 → p = (⟨[ℓ]⟩ : String))) ∧
    (0 < counts ℓ → ∃ p, (grouped_letter_mapping counts threshold).lookup ℓ = some p ∧
        ℓ ∈ p.data) ∧
    (counts ℓ = 0 → (grouped_letter_mapping counts threshold).lookup ℓ = none) := by
  refine ⟨?_, ?_, ?_, ?_⟩
  · exact char_map_lookup (fun c => (⟨[c]⟩ : String)) hℓ
  · rcases optimal_lookup_cases counts threshold ht hℓ with
      ⟨hh, hlk⟩ | ⟨hlow, B, hB, hkey, hlk⟩ | ⟨hz, hlk⟩
    · exact ⟨_, hlk, by simp, fun _ => rfl⟩
    · refine ⟨binName B, hlk, ?_, ?_⟩
      · exact (sortCharsAsc_perm _).mem_iff.mpr hkey
      · intro hz0
        exact absurd hlow.1 (by omega)
    · exact ⟨_, hlk, by simp, fun _ => rfl⟩
  · intro hpos
    exact grouped_mapping_pos counts threshold hℓ hpos
  · intro hz0
    exact grouped_mapping_nonpos counts threshold (by omega)

/-- Counterexample to C5 as stated: 'A' has count zero in Scenario B's
counts, yet the adjacency policy's mapping has no entry for 'A' at all —
the mapping is not defined on all 26 letters and the zero-count letter is
not mapped to itself. -/
theorem letter_mapping_totality_counterexample :
    scenarioBCounts 'A' = 0 ∧
    (grouped_letter_mapping scenarioBCounts 20).lookup 'A' = none := by
  exact ⟨by decide, by decide⟩

/-- Witness for C5 (amended) at Scenario B's counts, threshold 20, letter 'Q'. -/
theorem letter_mapping_totality_witness :
    simple_letter_mapping.lookup 'Q' = some (⟨['Q']⟩ : String) ∧
    (∃ p, (optimal_letter_mapping scenarioBCounts 20).lookup 'Q' = some p ∧
        'Q' ∈ p.data ∧ (scenarioBCounts 'Q' = 0 → p = (⟨['Q']⟩ : String))) :=
  ⟨(letter_mapping_totality scenarioBCounts 20 (by decide) 'Q' (by decide)).1,
   (letter_mapping_totality scenarioBCounts 20 (by decide) 'Q' (by decide)).2.1⟩

theorem filter_beq_singleton {l : List Char} (hnd : l.Nodup) {a : Char} (ha : a ∈ l) :
    l.filter (fun m => m == a) = [a] := by
  induction l with
  | nil => cases ha
  | cons c tcs ih =>
      rcases List.mem_cons.mp ha with h1 | h1
      · subst h1
        rw [List.filter_cons]
        rw [beq_self_eq_true, if_pos rfl]
        have hnil : tcs.filter (fun m => m == a) = [] := by
          apply List.filter_eq_nil_iff.mpr
          intro m hm
          have : m ≠ a := by
            rintro rfl
            exact (List.nodup_cons.mp hnd).1 hm
          simp [this]
        rw [hnil]
      · have hc : c ≠ a := by
          rintro rfl
          exact (List.nodup_cons.mp hnd).1 h1
        rw [List.filter_cons, beq_eq_false_iff_ne.mpr hc, if_neg (by simp)]
        exact ih (List.nodup_cons.mp hnd).2 h1

theorem optimal_mapping_mates (counts : Char → Int) (t : Int) (ht : 0 < t)
    (ℓ : Char) (hℓ : ℓ ∈ uppercaseLetters) :
    (pileMates (optimal_letter_mapping counts t) ℓ).length ≤ 3 ∧
    (((pileMates (optimal_letter_mapping counts t) ℓ).map counts).sum ≤ t ∨
     (pileMates (optimal_letter_mapping counts t) ℓ = [ℓ] ∧ t ≤ counts ℓ)) := by
  have hsingleton_ne : ∀ {m x : Char}, m ≠ x → (⟨[m]⟩ : String) ≠ (⟨[x]⟩ : String) := by
    intro m x hme he
    apply hme
    have := congrArg String.data he
    simpa using this
  have hbin_low : ∀ {B : List (Char × Int)},
      B ∈ optimal_bin_packing (lowLetters counts t) t →
      ∀ {m : Char}, m ∈ B.map Prod.fst → 0 < counts m ∧ counts m < t := by
    intro B hB m hmem
    obtain ⟨e, heB, hee⟩ := List.mem_map.mp hmem
    obtain ⟨h1, _, h3, h4⟩ := lowLetters_mem (bin_elem_low hB heB)
    rw [← hee, ← h1]
    exact ⟨h3, h4⟩
  rcases optimal_lookup_cases counts t ht hℓ with
    ⟨hh, hlook⟩ | ⟨hlow, B, hB, hkey, hlook⟩ | ⟨hz, hlook⟩
  · -- high-count letter: solo pile
    have hmates : pileMates (optimal_letter_mapping counts t) ℓ = [ℓ] := by
      unfold pileMates
      have hcongr : ∀ m ∈ uppercaseLetters,
          ((optimal_letter_mapping counts t).lookup m
            == (optimal_letter_mapping counts t).lookup ℓ) = (m == ℓ) := by
        intro m hm
        rw [hlook]
        rcases optimal_lookup_cases counts t ht hm with
          ⟨hh2, hl2⟩ | ⟨hl2, B2, hB2, hk2, hlk2⟩ | ⟨hz2, hl2⟩
        · rw [hl2]
          by_cases hme : m = ℓ
          · subst hme; simp
          · simp [hsingleton_ne hme, hme]
        · rw [hlk2]
          have hne : binName B2 ≠ (⟨[ℓ]⟩ : String) := by
            intro he
            have hkeys := binName_eq_singleton he
            have hmem : ℓ ∈ B2.map Prod.fst := by rw [hkeys]; simp
            have := hbin_low hB2 hmem
            omega
          have hme : m ≠ ℓ := by
            rintro rfl
            omega
          simp [hne, hme]
        · rw [hl2]
          by_cases hme : m = ℓ
          · subst hme; omega
          · simp [hsingleton_ne hme, hme]
      rw [List.filter_congr hcongr]
      exact filter_beq_singleton uppercase_nodup hℓ
    rw [hmates]
    exact ⟨by simp, Or.inr ⟨rfl, hh⟩⟩
  · -- low-count letter: pile is its bin
    have hpred : ∀ m ∈ uppercaseLetters,
        ((optimal_letter_mapping counts t).lookup m
          == (optimal_letter_mapping counts t).lookup ℓ)
          = decide (m ∈ B.map Prod.fst) := by
      intro m hm
      rw [hlook]
      rcases optimal_lookup_cases counts t ht hm with
        ⟨hh2, hl2⟩ | ⟨hl2, B2, hB2, hk2, hlk2⟩ | ⟨hz2, hl2⟩
      · rw [hl2]
        have hne : (⟨[m]⟩ : String) ≠ binName B := by
          intro he
          have hkeys := binName_eq_singleton he.symm
          have hmem : m ∈ B.map Prod.fst := by rw [hkeys]; simp
          have := hbin_low hB hmem
          omega
        have hnm : m ∉ B.map Prod.fst := by
          intro hmem
          have := hbin_low hB hmem
          omega
        simp [hne, hnm]
      · rw [hlk2]
        by_cases hsame : binName B2 = binName B
        · have hmB : m ∈ B.map Prod.fst := (binName_keys_perm hsame).mem_iff.mp hk2
          simp [hsame, hmB]
        · have hnm : m ∉ B.map Prod.fst := by
            intro hmem
            have h1 := optimal_lookup_of_HL (mappingHL_lookup_of_mem_bin hB hmem)
            rw [hlk2] at h1
            exact hsame (Option.some_injective _ h1)
          simp [hsame, hnm]
      · rw [hl2]
        have hne : (⟨[m]⟩ : String) ≠ binName B := by
          intro he
          have hkeys := binName_eq_singleton he.symm
          have hmem : m ∈ B.map Prod.fst := by rw [hkeys]; simp
          have := hbin_low hB hmem
          omega
        have hnm : m ∉ B.map Prod.fst := by
          intro hmem
          have := hbin_low hB hmem
          omega
        simp [hne, hnm]
    unfold pileMates
    rw [List.filter_congr hpred]
    have hBsub : ∀ x ∈ B.map Prod.fst, x ∈ uppercaseLetters := by
      intro x hx
      obtain ⟨e, heB, hee⟩ := List.mem_map.mp hx
      obtain ⟨_, h2, _, _⟩ := lowLetters_mem (bin_elem_low hB heB)
      exact hee ▸ h2
    have hperm : (uppercaseLetters.filter
        (fun m => decide (m ∈ B.map Prod.fst))).Perm (B.map Prod.fst) := by
      apply List.perm_of_nodup_nodup_toFinset_eq
      · exact uppercase_nodup.filter _
      · exact bin_keys_nodup hB
      · ext x
        simp only [List.mem_toFinset, List.mem_filter, decide_eq_true_eq]
        constructor
        · rintro ⟨_, h⟩; exact h
        · intro h; exact ⟨hBsub x h, h⟩
    obtain ⟨_, hlen3, hsum⟩ := optimal_bin_packing_inv (lowLetters counts t) t
        (fun e he => le_of_lt (lowLetters_mem he).2.2.2) B hB
    constructor
    · rw [hperm.length_eq, List.length_map]
      exact hlen3
    · left
      have hmapeq : (B.map Prod.fst).map counts = B.map Prod.snd := by
        rw [List.map_map]
        apply List.map_congr_left
        intro e he
        obtain ⟨h1, _, _, _⟩ := lowLetters_mem (bin_elem_low hB he)
        exact h1.symm
      rw [(hperm.map counts).sum_eq, hmapeq]
      exact hsum
  · -- zero-count letter: solo pile, trivially within capacity
    have hmates : pileMates (optimal_letter_mapping counts t) ℓ = [ℓ] := by
      unfold pileMates
      have hcongr : ∀ m ∈ uppercaseLetters,
          ((optimal_letter_mapping counts t).lookup m
            == (optimal_letter_mapping counts t).lookup ℓ) = (m == ℓ) := by
        intro m hm
        rw [hlook]
        rcases optimal_lookup_cases counts t ht hm with
          ⟨hh2, hl2⟩ | ⟨hl2, B2, hB2, hk2, hlk2⟩ | ⟨hz2, hl2⟩
        · rw [hl2]
          by_cases hme : m = ℓ
          · subst hme; omega
          · simp [hsingleton_ne hme, hme]
        · rw [hlk2]
          have hne : binName B2 ≠ (⟨[ℓ]⟩ : String) := by
            intro he
            have hkeys := binName_eq_singleton he
            have hmem : ℓ ∈ B2.map Prod.fst := by rw [hkeys]; simp
            have := hbin_low hB2 hmem
            omega
          have hme : m ≠ ℓ := by
            rintro rfl
            omega
          simp [hne, hme]
        · rw [hl2]
          by_cases hme : m = ℓ
          · subst hme; simp
          · simp [hsingleton_ne hme, hme]
      rw [List.filter_congr hcongr]
      exact filter_beq_singleton uppercase_nodup hℓ
    rw [hmates]
    refine ⟨by simp, Or.inl ?_⟩
    have hs : (([ℓ]).map counts).sum = counts ℓ := by simp
    rw [hs]
    omega

/-- C7: for every card list and every positive threshold, under the optimal
(capacity-bounded best-fit) letter-grouping policy the pile containing any
letter holds at most 3 letters, and its summed per-letter count is at most
the threshold unless it is a single letter whose own count is at least the
threshold. -/
theorem optimal_letter_plan_capacity (cards : List Card) (threshold : Int)
    (ht : 0 < threshold) (ℓ : Char) (hℓ : ℓ ∈ uppercaseLetters) :
    (pileMates (create_optimal_letter_plan cards threshold).2 ℓ).length ≤ 3 ∧
    (((pileMates (create_optimal_letter_plan cards threshold).2 ℓ).map
        (countOf (letter_counts_of_cards cards))).sum ≤ threshold ∨
     (pileMates (create_optimal_letter_plan cards threshold).2 ℓ = [ℓ] ∧
      threshold ≤ countOf (letter_counts_of_cards cards) ℓ)) :=
  optimal_mapping_mates (countOf (letter_counts_of_cards cards)) threshold ht ℓ hℓ

/-- Witness for C7 at Scenario B's cards, threshold 20, letter 'Q'. -/
theorem optimal_letter_plan_capacity_witness :
    (pileMates (create_optimal_letter_plan scenarioBCards 20).2 'Q').length ≤ 3 ∧
    (((pileMates (create_optimal_letter_plan scenarioBCards 20).2 'Q').map
        (countOf (letter_counts_of_cards scenarioBCards))).sum ≤ 20 ∨
     (pileMates (create_optimal_letter_plan scenarioBCards 20).2 'Q' = ['Q'] ∧
      20 ≤ countOf (letter_counts_of_cards scenarioBCards) 'Q')) :=
  optimal_letter_plan_capacity scenarioBCards 20 (by decide) 'Q' (by decide)
